import Mathlib

/-!
Verification of the stratified train/dev/test split allocator implemented in
`scripts/create_splits.py`.

The script is embedded shallowly:

* items are records with an id, a difficulty label, a table label and opaque
  payload fields;
* Python `float` arithmetic on the target fractions is modelled by exact
  rational arithmetic (`ℚ`); `round` is Python's round-half-to-even;
* Python list slicing `l[a:b]` (including its clamping and negative-index
  semantics) is modelled by `pySlice`;
* the dictionaries `groups` and `group_alloc` are modelled as association
  lists in insertion order, which is how Python dictionaries iterate;
* `random.Random(SEED).shuffle` is an external pseudo-random source; the
  pipeline is parametrised by a stateful shuffling function that is threaded
  through the strata in sorted-key order exactly as the script threads `rnd`;
* the `while` loop of the round-robin fallback, which Python can in principle
  run forever, is modelled with explicit fuel; exhausting the fuel yields
  `none`, as does the failure of the script's `assert`.
-/

namespace CreateSplits

/-- Python's `round` on an exact rational: round half to even (banker's
rounding), as `round` behaves on Python floats and ints. -/
def pyRound (q : ℚ) : ℤ :=
  if q - ⌊q⌋ < 1/2 then ⌊q⌋
  else if (1:ℚ)/2 < q - ⌊q⌋ then ⌊q⌋ + 1
  else if 2 ∣ ⌊q⌋ then ⌊q⌋ else ⌊q⌋ + 1

/-- Normalisation of a Python slice index against a list length: negative
indices count from the end, and the result is clamped into `[0, len]`. -/
def pyIdx (len : ℕ) (i : ℤ) : ℕ :=
  if i < 0 then ((len : ℤ) + i).toNat else min i.toNat len

/-- Python `l[:b]`. -/
def pySliceTo (l : List α) (b : ℤ) : List α :=
  l.take (pyIdx l.length b)

/-- Python `l[a:]`. -/
def pySliceFrom (l : List α) (a : ℤ) : List α :=
  l.drop (pyIdx l.length a)

/-- Python `l[a:b]`. -/
def pySlice (l : List α) (a b : ℤ) : List α :=
  (l.take (pyIdx l.length b)).drop (pyIdx l.length a)

/-- Lexicographic order on lists of characters, by Unicode code point, as
Python compares strings. -/
def strLtList : List Char → List Char → Bool
  | [], [] => false
  | [], _ :: _ => true
  | _ :: _, [] => false
  | a :: as, b :: bs =>
    if a.val < b.val then true else if b.val < a.val then false else strLtList as bs

/-- Python's `<` on strings. -/
def strLt (a b : String) : Bool :=
  strLtList a.data b.data

/-- A stratum key: the `(difficulty_level, table)` pair. -/
abbrev Key := String × String

/-- Python's `<` on `(str, str)` tuples: lexicographic. -/
def keyLt (a b : Key) : Bool :=
  strLt a.1 b.1 || (decide (a.1 = b.1) && strLt a.2 b.2)

/-- One record of `data/all.json` as consumed by the script: a unique id, the
two stratum labels, and opaque payload fields that the allocator only carries
through. -/
structure Item where
  id : ℕ
  difficulty_level : String
  table : String
  question : String
  sql : String
deriving DecidableEq, Repr, Inhabited

/-- A record as it sits in the JSON file, where any field may be missing;
accessing a missing field raises `KeyError` in the script. -/
structure RawItem where
  id : Option ℕ
  difficulty_level : Option String
  table : Option String
  question : String
  sql : String
deriving DecidableEq, Repr, Inhabited

/-- The stratum key of an item (line 32 of the script). -/
def keyOf (it : Item) : Key :=
  (it.difficulty_level, it.table)

/-- Configured seed (line 16). -/
def SEED : ℕ := 42

/-- Configured train fraction (line 17). -/
def TRAIN_FRAC : ℚ := 0.70

/-- Configured dev fraction (line 18). -/
def DEV_FRAC : ℚ := 0.15

/-- Configured test fraction (line 19); the script never reads it again. -/
def TEST_FRAC : ℚ := 0.15

/-- The id list `all_ids` (line 27). -/
def all_ids (items : List Item) : List ℕ :=
  items.map Item.id

/-- Append one item id to the group of its key: the effect of
`groups[key].append(it['id'])` on a `defaultdict(list)`, where a fresh key is
appended at the end in insertion order. -/
def addToGroups : List (Key × List ℕ) → Key → ℕ → List (Key × List ℕ)
  | [], k, i => [(k, [i])]
  | g :: gs, k, i => if g.1 = k then (g.1, g.2 ++ [i]) :: gs else g :: addToGroups gs k i

/-- The `groups` dictionary (lines 30–33), as an association list in insertion
order. -/
def groupsOf (items : List Item) : List (Key × List ℕ) :=
  items.foldl (fun gs it => addToGroups gs (keyOf it) it.id) []

/-- The global target for train (line 35). -/
def target_train (fT : ℚ) (n : ℕ) : ℤ :=
  pyRound ((n : ℚ) * fT)

/-- The global target for dev (line 36). -/
def target_dev (fD : ℚ) (n : ℕ) : ℤ :=
  pyRound ((n : ℚ) * fD)

/-- One per-stratum allocation record of `group_alloc` (lines 47–54). -/
structure Alloc where
  size : ℤ
  ideal_train : ℚ
  ideal_dev : ℚ
  train : ℤ
  dev : ℤ
  test : ℤ
deriving DecidableEq, Repr, Inhabited

/-- The two mutable split fields that `adjust_for_target` is called with. -/
inductive SplitField
  | train
  | dev
deriving DecidableEq, Repr

/-- Reading `v[split_key]`. -/
def getSplit : SplitField → Alloc → ℤ
  | .train, a => a.train
  | .dev, a => a.dev

/-- Reading `v['ideal_' + split_key]`. -/
def idealOf : SplitField → Alloc → ℚ
  | .train, a => a.ideal_train
  | .dev, a => a.ideal_dev

/-- Adding `c` to `v[split_key]`. -/
def addSplit : SplitField → ℤ → Alloc → Alloc
  | .train, c, a => { a with train := a.train + c }
  | .dev, c, a => { a with dev := a.dev + c }

/-- Recomputing `v['test'] = v['size'] - v['train'] - v['dev']`. -/
def withTest (a : Alloc) : Alloc :=
  { a with test := a.size - a.train - a.dev }

/-- Granting one unit of the given split to a stratum and restoring the test
complement (lines 71–72, 81–82). -/
def grantOne (f : SplitField) (a : Alloc) : Alloc :=
  withTest (addSplit f 1 a)

/-- The `group_alloc` dictionary, as an association list in insertion order. -/
abbrev GA := List (Key × Alloc)

/-- Updating `group_alloc[k]` in place. -/
def gaUpdate (ga : GA) (k : Key) (f : Alloc → Alloc) : GA :=
  ga.map (fun kv => if kv.1 = k then (k, f kv.2) else kv)

/-- Reading `group_alloc[k]` (total, with a junk default; the pipeline only
looks up keys that are present). -/
def gaFind (ga : GA) (k : Key) : Alloc :=
  ((ga.find? (fun kv => kv.1 = k)).map (fun kv => kv.2)).getD default

/-- The sum `sum(v[split_key] for v in group_alloc.values())`. -/
def sumSplit (f : SplitField) (ga : GA) : ℤ :=
  (ga.map (fun kv => getSplit f kv.2)).sum

/-- The floor-based initial allocation record of one stratum (lines 41–54). -/
def initAlloc (fT fD : ℚ) (g : ℕ) : Alloc :=
  { size := (g : ℤ)
    ideal_train := (g : ℚ) * fT
    ideal_dev := (g : ℚ) * fD
    train := ⌊(g : ℚ) * fT⌋
    dev := ⌊(g : ℚ) * fD⌋
    test := (g : ℤ) - ⌊(g : ℚ) * fT⌋ - ⌊(g : ℚ) * fD⌋ }

/-- The initial `group_alloc` (lines 39–54). -/
def initialGA (fT fD : ℚ) (items : List Item) : GA :=
  (groupsOf items).map (fun g => (g.1, initAlloc fT fD g.2.length))

/-- The `fracs` list of `adjust_for_target` (lines 61–65): fractional
remainder, key and spare capacity of every stratum, in dictionary order. -/
def fracsOf (f : SplitField) (ga : GA) : List (ℚ × Key × ℤ) :=
  ga.map (fun kv => (idealOf f kv.2 - (getSplit f kv.2 : ℚ), kv.1, kv.2.size - kv.2.train - kv.2.dev))

/-- Stable insertion of one element into a list sorted by descending first
component, matching Python's stable `sort(key=..., reverse=True)`. -/
def insDesc (x : ℚ × Key × ℤ) : List (ℚ × Key × ℤ) → List (ℚ × Key × ℤ)
  | [] => [x]
  | y :: ys => if x.1 < y.1 then y :: insDesc x ys else x :: y :: ys

/-- Stable sort by descending fractional remainder (line 66). -/
def sortDesc (l : List (ℚ × Key × ℤ)) : List (ℚ × Key × ℤ) :=
  l.foldr insDesc []

/-- The ranked walk of `adjust_for_target` (lines 67–74): walk the sorted
remainder list once, granting one unit to each stratum whose recorded capacity
is positive, while the deficit lasts. -/
def walkGrant (f : SplitField) : List (ℚ × Key × ℤ) → ℤ → GA → GA × ℤ
  | [], d, ga => (ga, d)
  | x :: rest, d, ga =>
    if d > 0 then
      if x.2.2 > 0 then walkGrant f rest (d - 1) (gaUpdate ga x.2.1 (grantOne f))
      else walkGrant f rest d ga
    else (ga, d)

/-- One full round of the round-robin fallback (lines 76–84): visit every key
once in dictionary order, granting one unit wherever the split is still below
the stratum size, while the deficit lasts. -/
def rrCycle (f : SplitField) (keys : List Key) (ga : GA) (d : ℤ) : GA × ℤ :=
  keys.foldl
    (fun p k =>
      if p.2 > 0 ∧ getSplit f (gaFind p.1 k) < (gaFind p.1 k).size
      then (gaUpdate p.1 k (grantOne f), p.2 - 1) else p)
    (ga, d)

/-- The `while deficit > 0` round-robin loop, with fuel counted in full rounds.
A round that makes no progress means the Python loop never terminates; that and
fuel exhaustion yield `none`. -/
def rrLoop (f : SplitField) (keys : List Key) : ℕ → GA → ℤ → Option GA
  | 0, ga, d => if d ≤ 0 then some ga else none
  | fuel + 1, ga, d =>
    if d ≤ 0 then some ga
    else
      let p := rrCycle f keys ga d
      if p.2 = d then none else rrLoop f keys fuel p.1 p.2

/-- The function `adjust_for_target` (lines 56–84). -/
def adjust_for_target (f : SplitField) (target : ℤ) (ga : GA) : Option GA :=
  let d := target - sumSplit f ga
  if d = 0 then some ga
  else
    let p := walkGrant f (sortDesc (fracsOf f ga)) d ga
    if p.2 > 0 then rrLoop f (ga.map (fun kv => kv.1)) p.2.toNat p.1 p.2 else some p.1

/-- One step of a final-reconciliation pass (the body of the loops at
lines 94–106 and 110–122), acting on the running `(group_alloc, diff)`. -/
def reconStep (f : SplitField) (target : ℤ) (p : GA × ℤ) (k : Key) : GA × ℤ :=
  if p.2 = 0 then p
  else
    let v := gaFind p.1 k
    let can := if p.2 > 0 then v.test else getSplit f v
    let change := min |p.2| can
    if change ≤ 0 then p
    else
      let ga' := gaUpdate p.1 k (fun a => withTest (addSplit f (if p.2 > 0 then change else -change) a))
      (ga', target - sumSplit f ga')

/-- One final-reconciliation pass (lines 90–106 for train, 108–122 for dev),
guarded by the pre-pass sum `sum0`. -/
def reconPass (f : SplitField) (target : ℤ) (sum0 : ℤ) (ga : GA) : GA :=
  if sum0 = target then ga
  else ((ga.map (fun kv => kv.1)).foldl (reconStep f target) (ga, target - sum0)).1

/-- The `group_alloc` state after the two `adjust_for_target` calls
(lines 86–87). -/
def adjustedGA (fT fD : ℚ) (items : List Item) : Option GA :=
  (adjust_for_target .train (target_train fT items.length) (initialGA fT fD items)).bind
    (fun ga1 => adjust_for_target .dev (target_dev fD items.length) ga1)

/-- The `group_alloc` state after the final reconciliation (lines 89–122).
Note `sum_train` and `sum_dev` are both read off before either pass runs. -/
def reconGA (fT fD : ℚ) (items : List Item) : Option GA :=
  (adjustedGA fT fD items).map (fun ga2 =>
    reconPass .dev (target_dev fD items.length) (sumSplit .dev ga2)
      (reconPass .train (target_train fT items.length) (sumSplit .train ga2) ga2))

/-- Stable insertion for sorting the strata by key, matching
`sorted(groups.items())` (distinct keys, so tuple comparison never reaches the
value lists). -/
def insKey (x : Key × List ℕ) : List (Key × List ℕ) → List (Key × List ℕ)
  | [] => [x]
  | y :: ys => if keyLt x.1 y.1 then x :: y :: ys else y :: insKey x ys

/-- Sorting the strata by key (line 129). -/
def sortByKey (l : List (Key × List ℕ)) : List (Key × List ℕ) :=
  l.foldr insKey []

/-- The deterministic per-group assignment loop (lines 125–140): shuffle each
stratum's ids with the threaded pseudo-random state, then slice the shuffled
list into train/dev/test chunks of the allocated sizes. Returns the
concatenated `train_ids`, `dev_ids`, `test_ids`. -/
def assignIds (ga : GA) {S : Type} (shuf : S → List ℕ → List ℕ × S) :
    S → List (Key × List ℕ) → List ℕ × List ℕ × List ℕ
  | _, [] => ([], [], [])
  | s, g :: rest =>
    let sh := shuf s g.2
    let a := gaFind ga g.1
    let tc := pySliceTo sh.1 a.train
    let dc := pySlice sh.1 a.train (a.train + a.dev)
    let xc := pySliceFrom sh.1 (a.train + a.dev)
    let r := assignIds ga shuf sh.2 rest
    (tc ++ r.1, dc ++ r.2.1, xc ++ r.2.2)

/-- The dictionary `id_to_item` (line 26): on duplicate ids the last record
wins, as in a Python dict comprehension. -/
def id_to_item (items : List Item) (i : ℕ) : Item :=
  (items.filter (fun it => it.id = i)).getLastD default

/-- Assembling one output partition (lines 147–149): filter the original item
order by membership of the id in the partition's id set. -/
def partitionOf (items : List Item) (pids : List ℕ) : List Item :=
  ((all_ids items).filter (fun i => i ∈ pids)).map (id_to_item items)

/-- The whole split computation of the script's `__main__` (lines 25–149),
from the in-memory item pool to the three output partitions. `none` models
abnormal termination: the failed `assert` of line 144 or a round-robin loop
that never terminates. -/
def create_splits (fT fD : ℚ) {S : Type} (shuf : S → List ℕ → List ℕ × S) (seed : S)
    (items : List Item) : Option (List Item × List Item × List Item) :=
  (reconGA fT fD items).bind (fun ga4 =>
    let asg := assignIds ga4 shuf seed (sortByKey (groupsOf items))
    if ((asg.1 ++ asg.2.1 ++ asg.2.2).dedup).length = items.length then
      some (partitionOf items asg.1, partitionOf items asg.2.1, partitionOf items asg.2.2)
    else none)

/-- The identity shuffler: one admissible instance of the external seeded
pseudo-random source (it permutes every list, trivially). -/
def idShuffle : Unit → List ℕ → List ℕ × Unit :=
  fun _ l => (l, ())

/-- The id extraction of lines 26–27 on raw records: `it['id']` raises
`KeyError` on the first record missing the field. -/
def rawAllIds : List RawItem → Except String (List ℕ)
  | [] => .ok []
  | it :: rest =>
    match it.id with
    | none => .error "KeyError: 'id'"
    | some i => (rawAllIds rest).map (fun l => i :: l)

/-- The grouping loop of lines 30–33 on raw records: accessing
`it['difficulty_level']` or `it['table']` raises `KeyError` on the first
record missing either field. -/
def groupsOfRawAux : List (Key × List ℕ) → List RawItem → Except String (List (Key × List ℕ))
  | gs, [] => .ok gs
  | gs, it :: rest =>
    match it.difficulty_level with
    | none => .error "KeyError: 'difficulty_level'"
    | some d =>
      match it.table with
      | none => .error "KeyError: 'table'"
      | some t => groupsOfRawAux (addToGroups gs (d, t) (it.id.getD 0)) rest

/-- The `groups` dictionary computed from raw records. -/
def groupsOfRaw (ritems : List RawItem) : Except String (List (Key × List ℕ)) :=
  groupsOfRawAux [] ritems

/-- A raw record whose fields were all successfully accessed. The defaults are
unreachable on the success path of `create_splits_raw`. -/
def stripRaw (r : RawItem) : Item :=
  { id := r.id.getD 0
    difficulty_level := r.difficulty_level.getD ""
    table := r.table.getD ""
    question := r.question
    sql := r.sql }

/-- The script run on the raw JSON records: the field accesses of lines 26–33
happen first and abort with `KeyError` on a missing field; otherwise the
computation proceeds on the fully-present records. -/
def create_splits_raw (fT fD : ℚ) {S : Type} (shuf : S → List ℕ → List ℕ × S) (seed : S)
    (ritems : List RawItem) : Except String (Option (List Item × List Item × List Item)) :=
  match rawAllIds ritems with
  | .error e => .error e
  | .ok _ =>
    match groupsOfRaw ritems with
    | .error e => .error e
    | .ok _ => .ok (create_splits fT fD shuf seed (ritems.map stripRaw))

/-- Per-stratum bounds that the allocation maintains: split counts stay
between zero and the stratum size, and the stored test field is the
complement of train and dev. -/
def AllocOK (a : Alloc) : Prop :=
  0 ≤ a.train ∧ 0 ≤ a.dev ∧ a.train ≤ a.size ∧ a.dev ≤ a.size ∧
    a.test = a.size - a.train - a.dev

/-- All strata of an allocation table satisfy `AllocOK`. -/
def GAOK (ga : GA) : Prop :=
  ∀ kv ∈ ga, AllocOK kv.2

/-- A generic item constructor for the concrete scenarios. -/
def mkItem (i : ℕ) (d t : String) : Item :=
  ⟨i, d, t, "q", "s"⟩

/-- The concrete scenario of the specification: ten items, seven in stratum
`(easy, production)` and three in `(hard, production)`. -/
def pool10 : List Item :=
  (List.range 7).map (fun i => mkItem i "easy" "production") ++
    (List.range 3).map (fun i => mkItem (7 + i) "hard" "production")

/-- Three items in three singleton strata. -/
def pool3 : List Item :=
  [mkItem 0 "a" "t", mkItem 1 "b" "t", mkItem 2 "c" "t"]

/-- A single-item pool. -/
def pool1 : List Item :=
  [mkItem 5 "easy" "production"]

/-- A pool with a duplicated id. -/
def poolDup : List Item :=
  [mkItem 0 "a" "t", mkItem 0 "a" "t", mkItem 1 "b" "t"]

/-- A raw pool whose second record is missing its `difficulty_level` field. -/
def rawMissing : List RawItem :=
  [⟨some 0, some "easy", some "t", "q", "s"⟩, ⟨some 1, none, some "t", "q", "s"⟩]

/-- A raw pool whose first record carries an empty-string difficulty label. -/
def rawEmptyKey : List RawItem :=
  [⟨some 0, some "", some "t", "q", "s"⟩, ⟨some 1, some "easy", some "t", "q", "s"⟩,
   ⟨some 2, some "easy", some "t", "q", "s"⟩]

/-- The allocation table of `pool3` at fractions `1/2, 1/2` after both
adjustment passes (and, the sums matching, after reconciliation too). The
round-robin fallback has pushed stratum `("a", "t")` to `test = -1`. -/
def ga3_final : GA :=
  [(("a","t"), ⟨1, 1/2, 1/2, 1, 1, -1⟩), (("b","t"), ⟨1, 1/2, 1/2, 1, 0, 0⟩),
   (("c","t"), ⟨1, 1/2, 1/2, 0, 1, 0⟩)]

/-- The floor-based initial allocation table of `pool10` at the configured
fractions. -/
def ga10_init : GA :=
  [(("easy","production"), ⟨7, 49/10, 21/20, 4, 1, 2⟩),
   (("hard","production"), ⟨3, 21/10, 9/20, 2, 0, 1⟩)]

/-- The allocation table of `pool10` after the train adjustment pass. -/
def ga10_mid : GA :=
  [(("easy","production"), ⟨7, 49/10, 21/20, 5, 1, 1⟩),
   (("hard","production"), ⟨3, 21/10, 9/20, 2, 0, 1⟩)]

/-- The allocation table of `pool10` after both adjustment passes. -/
def ga10_final : GA :=
  [(("easy","production"), ⟨7, 49/10, 21/20, 5, 1, 1⟩),
   (("hard","production"), ⟨3, 21/10, 9/20, 2, 1, 0⟩)]

/-! ### Basic lemmas about allocation records and table updates -/

lemma getSplit_addSplit_same (f : SplitField) (c : ℤ) (a : Alloc) :
    getSplit f (addSplit f c a) = getSplit f a + c := by
  cases f <;> simp [getSplit, addSplit]

lemma getSplit_withTest (f : SplitField) (a : Alloc) :
    getSplit f (withTest a) = getSplit f a := by
  cases f <;> simp [getSplit, withTest]

lemma getSplit_grantOne_same (f : SplitField) (a : Alloc) :
    getSplit f (grantOne f a) = getSplit f a + 1 := by
  simp [grantOne, getSplit_withTest, getSplit_addSplit_same]

lemma size_addSplit (f : SplitField) (c : ℤ) (a : Alloc) : (addSplit f c a).size = a.size := by
  cases f <;> simp [addSplit]

lemma size_withTest (a : Alloc) : (withTest a).size = a.size := by
  simp [withTest]

lemma size_grantOne (f : SplitField) (a : Alloc) : (grantOne f a).size = a.size := by
  simp [grantOne, size_withTest, size_addSplit]

lemma train_addSplit_dev (c : ℤ) (a : Alloc) : (addSplit .dev c a).train = a.train := by
  simp [addSplit]

lemma train_withTest (a : Alloc) : (withTest a).train = a.train := by
  simp [withTest]

lemma train_grantOne_dev (a : Alloc) : (grantOne .dev a).train = a.train := by
  simp [grantOne, train_withTest, train_addSplit_dev]

lemma dev_addSplit_train (c : ℤ) (a : Alloc) : (addSplit .train c a).dev = a.dev := by
  simp [addSplit]

lemma dev_withTest (a : Alloc) : (withTest a).dev = a.dev := by
  simp [withTest]

lemma dev_grantOne_train (a : Alloc) : (grantOne .train a).dev = a.dev := by
  simp [grantOne, dev_withTest, dev_addSplit_train]

lemma ideal_train_addSplit (f : SplitField) (c : ℤ) (a : Alloc) :
    (addSplit f c a).ideal_train = a.ideal_train := by
  cases f <;> simp [addSplit]

lemma ideal_dev_addSplit (f : SplitField) (c : ℤ) (a : Alloc) :
    (addSplit f c a).ideal_dev = a.ideal_dev := by
  cases f <;> simp [addSplit]

lemma ideal_train_grantOne (f : SplitField) (a : Alloc) :
    (grantOne f a).ideal_train = a.ideal_train := by
  simp [grantOne, withTest, ideal_train_addSplit]

lemma ideal_dev_grantOne (f : SplitField) (a : Alloc) :
    (grantOne f a).ideal_dev = a.ideal_dev := by
  simp [grantOne, withTest, ideal_dev_addSplit]

lemma test_withTest (a : Alloc) : (withTest a).test = a.size - a.train - a.dev := by
  simp [withTest]

/-! ### Lemmas about `gaFind`, `gaUpdate` and `sumSplit` -/

lemma upd_fst (k : Key) (u : Alloc → Alloc) (kv : Key × Alloc) :
    ((if kv.1 = k then (k, u kv.2) else kv) : Key × Alloc).1 = kv.1 := by
  by_cases h : kv.1 = k <;> simp [h]

lemma gaUpdate_keys (ga : GA) (k : Key) (u : Alloc → Alloc) :
    (gaUpdate ga k u).map (fun kv => kv.1) = ga.map (fun kv => kv.1) := by
  simp only [gaUpdate, List.map_map]
  exact List.map_congr_left (fun kv _ => upd_fst k u kv)

lemma gaUpdate_of_not_mem (ga : GA) (k : Key) (u : Alloc → Alloc)
    (h : k ∉ ga.map (fun kv => kv.1)) : gaUpdate ga k u = ga := by
  have : ∀ kv ∈ ga, (if kv.1 = k then (k, u kv.2) else kv) = kv := by
    intro kv hkv
    have : kv.1 ≠ k := by
      intro he
      exact h (he ▸ List.mem_map_of_mem (fun kv => kv.1) hkv)
    simp [this]
  calc gaUpdate ga k u = ga.map id := List.map_congr_left (fun kv hkv => this kv hkv)
    _ = ga := List.map_id ga

lemma gaFind_cons_pos (hd : Key × Alloc) (tl : GA) (j : Key) (h : hd.1 = j) :
    gaFind (hd :: tl) j = hd.2 := by
  simp [gaFind, List.find?_cons_of_pos, h]

lemma gaFind_cons_neg (hd : Key × Alloc) (tl : GA) (j : Key) (h : hd.1 ≠ j) :
    gaFind (hd :: tl) j = gaFind tl j := by
  simp only [gaFind]
  rw [List.find?_cons_of_neg]
  simp [h]

lemma gaFind_update_ne (ga : GA) (k j : Key) (u : Alloc → Alloc) (h : j ≠ k) :
    gaFind (gaUpdate ga k u) j = gaFind ga j := by
  induction ga with
  | nil => rfl
  | cons hd tl ih =>
    have hfst := upd_fst k u hd
    by_cases hj : hd.1 = j
    · rw [show gaUpdate (hd :: tl) k u =
        (if hd.1 = k then (k, u hd.2) else hd) :: gaUpdate tl k u from rfl]
      rw [gaFind_cons_pos _ _ _ (hfst.trans hj), gaFind_cons_pos _ _ _ hj]
      have : ¬ hd.1 = k := fun he => h (hj ▸ he ▸ rfl)
      simp [this]
    · rw [show gaUpdate (hd :: tl) k u =
        (if hd.1 = k then (k, u hd.2) else hd) :: gaUpdate tl k u from rfl]
      rw [gaFind_cons_neg _ _ _ (hfst.trans_ne hj), gaFind_cons_neg _ _ _ hj]
      exact ih

lemma gaFind_update_self (ga : GA) (k : Key) (u : Alloc → Alloc)
    (h : k ∈ ga.map (fun kv => kv.1)) :
    gaFind (gaUpdate ga k u) k = u (gaFind ga k) := by
  induction ga with
  | nil => simp at h
  | cons hd tl ih =>
    rw [show gaUpdate (hd :: tl) k u =
      (if hd.1 = k then (k, u hd.2) else hd) :: gaUpdate tl k u from rfl]
    by_cases hk : hd.1 = k
    · rw [gaFind_cons_pos _ _ _ ((upd_fst k u hd).trans hk), gaFind_cons_pos _ _ _ hk]
      simp [hk]
    · simp only [List.map_cons, List.mem_cons] at h
      rcases h with h | h
      · exact absurd h.symm hk
      · rw [gaFind_cons_neg _ _ _ ((upd_fst k u hd).trans_ne hk),
          gaFind_cons_neg _ _ _ hk]
        exact ih h

lemma gaFind_update_or (ga : GA) (k j : Key) (u : Alloc → Alloc) :
    gaFind (gaUpdate ga k u) j = gaFind ga j ∨
      gaFind (gaUpdate ga k u) j = u (gaFind ga j) := by
  by_cases hj : j = k
  · subst hj
    by_cases h : j ∈ ga.map (fun kv => kv.1)
    · exact Or.inr (gaFind_update_self ga j u h)
    · exact Or.inl (by rw [gaUpdate_of_not_mem ga j u h])
  · exact Or.inl (gaFind_update_ne ga k j u hj)

lemma gaFind_of_mem (ga : GA) (kv : Key × Alloc)
    (hnd : (ga.map (fun p => p.1)).Nodup) (h : kv ∈ ga) : gaFind ga kv.1 = kv.2 := by
  induction ga with
  | nil => simp at h
  | cons hd tl ih =>
    simp only [List.map_cons, List.nodup_cons] at hnd
    rcases List.mem_cons.mp h with h | h
    · subst h
      exact gaFind_cons_pos _ _ _ rfl
    · have hne : hd.1 ≠ kv.1 := by
        intro he
        exact hnd.1 (he ▸ List.mem_map_of_mem (fun p => p.1) h)
      rw [gaFind_cons_neg _ _ _ hne]
      exact ih hnd.2 h

lemma gaFind_not_mem (ga : GA) (k : Key) (h : k ∉ ga.map (fun p => p.1)) :
    gaFind ga k = default := by
  induction ga with
  | nil => rfl
  | cons hd tl ih =>
    simp only [List.map_cons, List.mem_cons] at h
    push_neg at h
    rw [gaFind_cons_neg _ _ _ (Ne.symm h.1)]
    exact ih h.2

lemma sumSplit_cons (f : SplitField) (hd : Key × Alloc) (tl : GA) :
    sumSplit f (hd :: tl) = getSplit f hd.2 + sumSplit f tl := by
  simp [sumSplit]

lemma sumSplit_gaUpdate (f : SplitField) (ga : GA) (k : Key) (u : Alloc → Alloc)
    (hnd : (ga.map (fun p => p.1)).Nodup) (h : k ∈ ga.map (fun p => p.1)) :
    sumSplit f (gaUpdate ga k u) =
      sumSplit f ga + (getSplit f (u (gaFind ga k)) - getSplit f (gaFind ga k)) := by
  induction ga with
  | nil => simp at h
  | cons hd tl ih =>
    simp only [List.map_cons, List.nodup_cons] at hnd
    simp only [List.map_cons, List.mem_cons] at h
    rw [show gaUpdate (hd :: tl) k u =
      (if hd.1 = k then (k, u hd.2) else hd) :: gaUpdate tl k u from rfl]
    rw [sumSplit_cons, sumSplit_cons]
    by_cases hk : hd.1 = k
    · have hnk : k ∉ tl.map (fun p => p.1) := hk ▸ hnd.1
      rw [gaUpdate_of_not_mem tl k u hnk, gaFind_cons_pos _ _ _ hk]
      simp [hk]
      omega
    · rcases h with h | h
      · exact absurd h.symm hk
      · rw [gaFind_cons_neg _ _ _ hk, if_neg hk, ih hnd.2 h]
        omega

/-! ### Lemmas about grouping, sorting and slicing -/

lemma addToGroups_join (gs : List (Key × List ℕ)) (k : Key) (i : ℕ) :
    ((addToGroups gs k i).map (fun g => g.2)).flatten.Perm
      ((gs.map (fun g => g.2)).flatten ++ [i]) := by
  induction gs with
  | nil => simp [addToGroups]
  | cons g gs ih =>
    by_cases h : g.1 = k
    · simp only [addToGroups, if_pos h, List.map_cons, List.flatten_cons, List.append_assoc]
      exact List.Perm.append_left g.2 (List.perm_append_comm.trans (List.Perm.refl _)).symm
    · simp only [addToGroups, if_neg h, List.map_cons, List.flatten_cons, List.append_assoc]
      exact List.Perm.append_left g.2 ih

lemma groupsOf_join_aux (items : List Item) :
    ∀ gs : List (Key × List ℕ),
      (((items.foldl (fun gs it => addToGroups gs (keyOf it) it.id) gs).map
        (fun g => g.2)).flatten).Perm ((gs.map (fun g => g.2)).flatten ++ items.map Item.id) := by
  induction items with
  | nil => intro gs; simp
  | cons it tl ih =>
    intro gs
    have h1 := ih (addToGroups gs (keyOf it) it.id)
    have h2 := (addToGroups_join gs (keyOf it) it.id).append_right (tl.map Item.id)
    simp only [List.foldl_cons]
    refine h1.trans (h2.trans ?_)
    simp [List.append_assoc]

lemma groupsOf_join (items : List Item) :
    (((groupsOf items).map (fun g => g.2)).flatten).Perm (all_ids items) := by
  simpa [groupsOf, all_ids] using groupsOf_join_aux items []

lemma addToGroups_keys (gs : List (Key × List ℕ)) (k : Key) (i : ℕ) :
    (addToGroups gs k i).map (fun g => g.1) =
      if k ∈ gs.map (fun g => g.1) then gs.map (fun g => g.1)
      else gs.map (fun g => g.1) ++ [k] := by
  induction gs with
  | nil => simp [addToGroups]
  | cons g gs ih =>
    by_cases h : g.1 = k
    · simp [addToGroups, h]
    · simp only [addToGroups, if_neg h, List.map_cons, ih, List.mem_cons]
      by_cases hm : k ∈ gs.map (fun g => g.1)
      · simp [hm, Ne.symm h]
      · simp [hm, Ne.symm h]

lemma addToGroups_keys_nodup (gs : List (Key × List ℕ)) (k : Key) (i : ℕ)
    (h : (gs.map (fun g => g.1)).Nodup) :
    ((addToGroups gs k i).map (fun g => g.1)).Nodup := by
  rw [addToGroups_keys]
  by_cases hm : k ∈ gs.map (fun g => g.1)
  · simpa [hm] using h
  · simp [hm, List.nodup_append, h]

lemma groupsOf_keys_nodup (items : List Item) :
    ((groupsOf items).map (fun g => g.1)).Nodup := by
  suffices h : ∀ gs : List (Key × List ℕ), (gs.map (fun g => g.1)).Nodup →
      (((items.foldl (fun gs it => addToGroups gs (keyOf it) it.id) gs).map
        (fun g => g.1)).Nodup) by
    exact h [] (by simp)
  induction items with
  | nil => intro gs hgs; simpa using hgs
  | cons it tl ih =>
    intro gs hgs
    exact ih _ (addToGroups_keys_nodup gs (keyOf it) it.id hgs)

lemma insKey_perm (x : Key × List ℕ) (l : List (Key × List ℕ)) :
    (insKey x l).Perm (x :: l) := by
  induction l with
  | nil => simp [insKey]
  | cons y ys ih =>
    by_cases h : keyLt x.1 y.1
    · simp [insKey, h]
    · simp only [insKey, if_neg h]
      exact (ih.cons y).trans (List.Perm.swap x y ys)

lemma sortByKey_perm (l : List (Key × List ℕ)) : (sortByKey l).Perm l := by
  induction l with
  | nil => simp [sortByKey]
  | cons x xs ih =>
    simp only [sortByKey, List.foldr_cons]
    exact (insKey_perm x _).trans ((ih.cons x).trans (List.Perm.refl _))

lemma insDesc_perm (x : ℚ × Key × ℤ) (l : List (ℚ × Key × ℤ)) :
    (insDesc x l).Perm (x :: l) := by
  induction l with
  | nil => simp [insDesc]
  | cons y ys ih =>
    by_cases h : x.1 < y.1
    · simp only [insDesc, if_pos h]
      exact (ih.cons y).trans (List.Perm.swap x y ys)
    · simp [insDesc, h]

lemma sortDesc_perm (l : List (ℚ × Key × ℤ)) : (sortDesc l).Perm l := by
  induction l with
  | nil => simp [sortDesc]
  | cons x xs ih =>
    simp only [sortDesc, List.foldr_cons]
    exact (insDesc_perm x _).trans ((ih.cons x).trans (List.Perm.refl _))

lemma pyIdx_of_nonneg (len : ℕ) (t : ℤ) (h : 0 ≤ t) : pyIdx len t = min t.toNat len := by
  simp [pyIdx, not_lt.mpr h]

lemma slice_partition {α : Type} (l : List α) (t d : ℤ) (ht : 0 ≤ t) (hd : 0 ≤ d) :
    pySliceTo l t ++ (pySlice l t (t + d) ++ pySliceFrom l (t + d)) = l := by
  have htd : (0 : ℤ) ≤ t + d := add_nonneg ht hd
  rw [pySliceTo, pySlice, pySliceFrom, pyIdx_of_nonneg _ _ ht, pyIdx_of_nonneg _ _ htd]
  set t' := min t.toNat l.length with ht'
  set b' := min (t + d).toNat l.length with hb'
  have htb : t' ≤ b' :=
    min_le_min (Int.toNat_le_toNat (le_add_of_nonneg_right hd)) (le_refl _)
  have h1 : List.take t' l = List.take t' (List.take b' l) := by
    rw [List.take_take, min_eq_left htb]
  rw [h1, ← List.append_assoc, List.take_append_drop, List.take_append_drop]

lemma three_append_interchange (a b c d e f : List ℕ) :
    ((a ++ d) ++ ((b ++ e) ++ (c ++ f))).Perm ((a ++ (b ++ c)) ++ (d ++ (e ++ f))) := by
  rw [List.perm_iff_count]
  intro x
  simp [List.count_append]
  omega

/-! ### Arithmetic lemmas: Python rounding against floors and ceilings -/

lemma pyRound_ge_floor (q : ℚ) : ⌊q⌋ ≤ pyRound q := by
  unfold pyRound
  split_ifs <;> omega

lemma pyRound_le_ceil (q : ℚ) : pyRound q ≤ ⌈q⌉ := by
  have hfc : ⌊q⌋ ≤ ⌈q⌉ := Int.floor_le_ceil q
  unfold pyRound
  split_ifs with h1 h2 h3
  · exact hfc
  · have hq : (⌊q⌋ : ℚ) < q := by linarith
    have := Int.lt_ceil.mpr hq
    omega
  · exact hfc
  · have hq : (⌊q⌋ : ℚ) < q := by
      push_neg at h1
      have : (1 : ℚ)/2 ≤ q - ⌊q⌋ := h1
      linarith
    have := Int.lt_ceil.mpr hq
    omega

lemma sum_floor_le_floor_sum (l : List ℚ) : (l.map (fun q => ⌊q⌋)).sum ≤ ⌊l.sum⌋ := by
  induction l with
  | nil => simp
  | cons q tl ih =>
    simp only [List.map_cons, List.sum_cons]
    have h1 : (⌊q⌋ : ℚ) + ((tl.map (fun q => ⌊q⌋)).sum : ℤ) ≤ q + tl.sum := by
      have h2 : (((tl.map (fun q => ⌊q⌋)).sum : ℤ) : ℚ) ≤ tl.sum :=
        le_trans (by exact_mod_cast ih) (Int.floor_le tl.sum)
      have h3 : (⌊q⌋ : ℚ) ≤ q := Int.floor_le q
      linarith
    have := Int.le_floor.mpr (by push_cast at h1 ⊢; linarith : ((⌊q⌋ + (tl.map (fun q => ⌊q⌋)).sum : ℤ) : ℚ) ≤ q + tl.sum)
    omega

lemma ceil_sum_le (l : List ℚ) :
    ⌈l.sum⌉ ≤ (l.map (fun q => ⌊q⌋)).sum + (l.countP (fun q => decide ((⌊q⌋ : ℚ) < q)) : ℤ) := by
  induction l with
  | nil => simp
  | cons q tl ih =>
    simp only [List.map_cons, List.sum_cons, List.countP_cons]
    have hsplit : ⌈q + tl.sum⌉ ≤ ⌈q⌉ + ⌈tl.sum⌉ := Int.ceil_add_le q tl.sum
    by_cases hq : (⌊q⌋ : ℚ) < q
    · have h1 : ⌈q⌉ ≤ ⌊q⌋ + 1 := Int.ceil_le_floor_add_one q
      have hpq : (decide ((⌊q⌋ : ℚ) < q)) = true := decide_eq_true hq
      simp only [hpq, if_true]
      push_cast at ih ⊢
      omega
    · have hqe : q = (⌊q⌋ : ℚ) := le_antisymm (not_lt.mp hq) (Int.floor_le q)
      have h1 : ⌈q⌉ = ⌊q⌋ := by
        rw [hqe]
        simp
      have hpq : (decide ((⌊q⌋ : ℚ) < q)) = false := decide_eq_false hq
      simp only [hpq, if_false, Bool.false_eq_true]
      push_cast at ih ⊢
      omega

/-! ### The allocation-table invariant -/

lemma allocOK_default : AllocOK (default : Alloc) := by
  exact ⟨le_refl 0, le_refl 0, le_refl 0, le_refl 0, rfl⟩

lemma gaFind_OK (ga : GA) (hok : GAOK ga) (k : Key) : AllocOK (gaFind ga k) := by
  unfold gaFind
  cases hf : ga.find? (fun kv => kv.1 = k) with
  | none => simpa using allocOK_default
  | some kv =>
    simpa using hok kv (List.mem_of_find?_eq_some hf)

lemma getSplit_lt_of_cap (f : SplitField) (a : Alloc) (hok : AllocOK a)
    (hcap : 0 < a.size - a.train - a.dev) : getSplit f a < a.size := by
  obtain ⟨h1, h2, h3, h4, h5⟩ := hok
  cases f <;> simp [getSplit] <;> omega

lemma allocOK_grantOne (f : SplitField) (a : Alloc) (hok : AllocOK a)
    (hlt : getSplit f a < a.size) : AllocOK (grantOne f a) := by
  obtain ⟨h1, h2, h3, h4, h5⟩ := hok
  cases f <;>
    simp only [grantOne, addSplit, withTest, getSplit, AllocOK] at hlt ⊢ <;>
    refine ⟨by omega, by omega, by omega, by omega, by ring_nf⟩

lemma GAOK_gaUpdate (ga : GA) (k : Key) (u : Alloc → Alloc)
    (hnd : (ga.map (fun p => p.1)).Nodup) (hok : GAOK ga)
    (hu : AllocOK (u (gaFind ga k))) : GAOK (gaUpdate ga k u) := by
  intro kv' hkv'
  obtain ⟨kv, hkv, heq⟩ := List.mem_map.mp hkv'
  by_cases hk : kv.1 = k
  · have hfind : gaFind ga k = kv.2 := by
      rw [← hk]
      exact gaFind_of_mem ga kv hnd hkv
    rw [← heq]
    simp only [if_pos hk]
    rw [← hfind]
    exact hu
  · rw [← heq]
    simp only [if_neg hk]
    exact hok kv hkv

lemma gaUpdate_proj {β : Type} (ga : GA) (k : Key) (u : Alloc → Alloc) (proj : Alloc → β)
    (hu : ∀ a, proj (u a) = proj a) :
    (gaUpdate ga k u).map (fun kv => proj kv.2) = ga.map (fun kv => proj kv.2) := by
  simp only [gaUpdate, List.map_map]
  refine List.map_congr_left (fun kv _ => ?_)
  by_cases h : kv.1 = k <;> simp [h, hu]

lemma sum_size_le_sumSplit (f : SplitField) (ga : GA)
    (hc : ∀ kv ∈ ga, kv.2.size ≤ getSplit f kv.2) :
    (ga.map (fun kv => kv.2.size)).sum ≤ sumSplit f ga := by
  unfold sumSplit
  induction ga with
  | nil => simp
  | cons hd tl ih =>
    simp only [List.map_cons, List.sum_cons]
    have h1 := hc hd (List.mem_cons_self hd tl)
    have h2 := ih (fun kv hkv => hc kv (List.mem_cons_of_mem hd hkv))
    omega

lemma exists_lt_of_sumSplit_lt (f : SplitField) (ga : GA)
    (h : sumSplit f ga < (ga.map (fun kv => kv.2.size)).sum) :
    ∃ kv ∈ ga, getSplit f kv.2 < kv.2.size := by
  by_contra hc
  push_neg at hc
  exact absurd (sum_size_le_sumSplit f ga hc) (not_le.mpr h)

/-! ### Lemmas about the ranked deficit walk -/

lemma walkGrant_keys (f : SplitField) (lst : List (ℚ × Key × ℤ)) (d : ℤ) (ga : GA) :
    (walkGrant f lst d ga).1.map (fun kv => kv.1) = ga.map (fun kv => kv.1) := by
  induction lst generalizing d ga with
  | nil => rfl
  | cons x rest ih =>
    by_cases hd0 : d > 0
    · by_cases hc : x.2.2 > 0
      · simp only [walkGrant, if_pos hd0, if_pos hc]
        rw [ih, gaUpdate_keys]
      · simp only [walkGrant, if_pos hd0, if_neg hc]
        exact ih d ga
    · simp only [walkGrant, if_neg hd0]

lemma walkGrant_proj {β : Type} (f : SplitField) (proj : Alloc → β)
    (hu : ∀ a, proj (grantOne f a) = proj a) (lst : List (ℚ × Key × ℤ)) (d : ℤ) (ga : GA) :
    (walkGrant f lst d ga).1.map (fun kv => proj kv.2) = ga.map (fun kv => proj kv.2) := by
  induction lst generalizing d ga with
  | nil => rfl
  | cons x rest ih =>
    by_cases hd0 : d > 0
    · by_cases hc : x.2.2 > 0
      · simp only [walkGrant, if_pos hd0, if_pos hc]
        rw [ih, gaUpdate_proj _ _ _ _ hu]
      · simp only [walkGrant, if_pos hd0, if_neg hc]
        exact ih d ga
    · simp only [walkGrant, if_neg hd0]

lemma walkGrant_d_bounds (f : SplitField) (lst : List (ℚ × Key × ℤ)) (d : ℤ) (ga : GA)
    (h : 0 ≤ d) : 0 ≤ (walkGrant f lst d ga).2 ∧ (walkGrant f lst d ga).2 ≤ d := by
  induction lst generalizing d ga with
  | nil => simp [walkGrant, h]
  | cons x rest ih =>
    by_cases hd0 : d > 0
    · by_cases hc : x.2.2 > 0
      · simp only [walkGrant, if_pos hd0, if_pos hc]
        have := ih (d - 1) (gaUpdate ga x.2.1 (grantOne f)) (by omega)
        omega
      · simp only [walkGrant, if_pos hd0, if_neg hc]
        exact ih d ga h
    · simp only [walkGrant, if_neg hd0]
      omega

lemma walkGrant_d_zero (f : SplitField) (lst : List (ℚ × Key × ℤ)) (d : ℤ) (ga : GA)
    (h : 0 ≤ d) (hE : d ≤ (lst.countP (fun x => decide (0 < x.2.2)) : ℤ)) :
    (walkGrant f lst d ga).2 = 0 := by
  induction lst generalizing d ga with
  | nil =>
    simp only [List.countP_nil, Nat.cast_zero] at hE
    simp only [walkGrant]
    omega
  | cons x rest ih =>
    by_cases hd0 : d > 0
    · by_cases hc : x.2.2 > 0
      · simp only [walkGrant, if_pos hd0, if_pos hc]
        refine ih (d - 1) _ (by omega) ?_
        have : (decide (0 < x.2.2)) = true := decide_eq_true hc
        simp only [List.countP_cons, this, if_true] at hE
        push_cast at hE ⊢
        omega
      · simp only [walkGrant, if_pos hd0, if_neg hc]
        refine ih d ga h ?_
        have : (decide (0 < x.2.2)) = false := decide_eq_false hc
        simp only [List.countP_cons, this, if_false, Bool.false_eq_true] at hE
        push_cast at hE ⊢
        omega
    · simp only [walkGrant, if_neg hd0]
      omega

lemma walkGrant_sum (f : SplitField) (lst : List (ℚ × Key × ℤ)) (d : ℤ) (ga : GA)
    (hnd : (ga.map (fun p => p.1)).Nodup)
    (hkeys : ∀ x ∈ lst, x.2.1 ∈ ga.map (fun p => p.1)) :
    sumSplit f (walkGrant f lst d ga).1 = sumSplit f ga + (d - (walkGrant f lst d ga).2) := by
  induction lst generalizing d ga with
  | nil => simp [walkGrant]
  | cons x rest ih =>
    by_cases hd0 : d > 0
    · by_cases hc : x.2.2 > 0
      · simp only [walkGrant, if_pos hd0, if_pos hc]
        have hx := hkeys x (List.mem_cons_self x rest)
        have hsum : sumSplit f (gaUpdate ga x.2.1 (grantOne f)) = sumSplit f ga + 1 := by
          rw [sumSplit_gaUpdate f ga x.2.1 (grantOne f) hnd hx, getSplit_grantOne_same]
          omega
        have hnd' : ((gaUpdate ga x.2.1 (grantOne f)).map (fun p => p.1)).Nodup := by
          rw [gaUpdate_keys]; exact hnd
        have hkeys' : ∀ y ∈ rest, y.2.1 ∈
            (gaUpdate ga x.2.1 (grantOne f)).map (fun p => p.1) := by
          intro y hy
          rw [gaUpdate_keys]
          exact hkeys y (List.mem_cons_of_mem x hy)
        rw [ih (d - 1) _ hnd' hkeys', hsum]
        omega
      · simp only [walkGrant, if_pos hd0, if_neg hc]
        exact ih d ga hnd (fun y hy => hkeys y (List.mem_cons_of_mem x hy))
    · simp only [walkGrant, if_neg hd0]
      omega

lemma walkGrant_GAOK (f : SplitField) (lst : List (ℚ × Key × ℤ)) (d : ℤ) (ga : GA)
    (hnd : (ga.map (fun p => p.1)).Nodup) (hok : GAOK ga)
    (hlnd : (lst.map (fun x => x.2.1)).Nodup)
    (hcaps : ∀ x ∈ lst,
      x.2.2 ≤ (gaFind ga x.2.1).size - (gaFind ga x.2.1).train - (gaFind ga x.2.1).dev) :
    GAOK (walkGrant f lst d ga).1 := by
  induction lst generalizing d ga with
  | nil => exact hok
  | cons x rest ih =>
    simp only [List.map_cons, List.nodup_cons] at hlnd
    by_cases hd0 : d > 0
    · by_cases hc : x.2.2 > 0
      · simp only [walkGrant, if_pos hd0, if_pos hc]
        have hxcap := hcaps x (List.mem_cons_self x rest)
        have hfok : AllocOK (gaFind ga x.2.1) := gaFind_OK ga hok x.2.1
        have hlt : getSplit f (gaFind ga x.2.1) < (gaFind ga x.2.1).size :=
          getSplit_lt_of_cap f _ hfok (by omega)
        have hok' : GAOK (gaUpdate ga x.2.1 (grantOne f)) :=
          GAOK_gaUpdate ga x.2.1 (grantOne f) hnd hok (allocOK_grantOne f _ hfok hlt)
        have hnd' : ((gaUpdate ga x.2.1 (grantOne f)).map (fun p => p.1)).Nodup := by
          rw [gaUpdate_keys]; exact hnd
        refine ih (d - 1) _ hnd' hok' hlnd.2 ?_
        intro y hy
        have hyne : y.2.1 ≠ x.2.1 := by
          intro he
          exact hlnd.1 (he ▸ List.mem_map_of_mem (fun x => x.2.1) hy)
        rw [gaFind_update_ne ga x.2.1 y.2.1 (grantOne f) hyne]
        exact hcaps y (List.mem_cons_of_mem x hy)
      · simp only [walkGrant, if_pos hd0, if_neg hc]
        exact ih d ga hnd hok hlnd.2 (fun y hy => hcaps y (List.mem_cons_of_mem x hy))
    · simp only [walkGrant, if_neg hd0]
      exact hok

lemma walkGrant_find_not_mem (f : SplitField) (lst : List (ℚ × Key × ℤ)) (d : ℤ) (ga : GA)
    (j : Key) (hj : j ∉ lst.map (fun x => x.2.1)) :
    gaFind (walkGrant f lst d ga).1 j = gaFind ga j := by
  induction lst generalizing d ga with
  | nil => rfl
  | cons x rest ih =>
    simp only [List.map_cons, List.mem_cons] at hj
    push_neg at hj
    by_cases hd0 : d > 0
    · by_cases hc : x.2.2 > 0
      · simp only [walkGrant, if_pos hd0, if_pos hc]
        rw [ih (d - 1) _ hj.2, gaFind_update_ne ga x.2.1 j (grantOne f) hj.1]
      · simp only [walkGrant, if_pos hd0, if_neg hc]
        exact ih d ga hj.2
    · simp only [walkGrant, if_neg hd0]

lemma walkGrant_find_or (f : SplitField) (lst : List (ℚ × Key × ℤ)) (d : ℤ) (ga : GA)
    (hlnd : (lst.map (fun x => x.2.1)).Nodup) (j : Key) :
    gaFind (walkGrant f lst d ga).1 j = gaFind ga j ∨
      gaFind (walkGrant f lst d ga).1 j = grantOne f (gaFind ga j) := by
  induction lst generalizing d ga with
  | nil => exact Or.inl rfl
  | cons x rest ih =>
    simp only [List.map_cons, List.nodup_cons] at hlnd
    by_cases hd0 : d > 0
    · by_cases hc : x.2.2 > 0
      · simp only [walkGrant, if_pos hd0, if_pos hc]
        by_cases hjx : j = x.2.1
        · have hnm : j ∉ rest.map (fun x => x.2.1) := hjx.symm ▸ hlnd.1
          rw [walkGrant_find_not_mem f rest (d - 1) _ j hnm]
          rcases gaFind_update_or ga x.2.1 j (grantOne f) with h | h
          · exact Or.inl h
          · exact Or.inr h
        · rcases ih (d - 1) (gaUpdate ga x.2.1 (grantOne f)) hlnd.2 with h | h <;>
            rw [gaFind_update_ne ga x.2.1 j (grantOne f) hjx] at h
          · exact Or.inl h
          · exact Or.inr h
      · simp only [walkGrant, if_pos hd0, if_neg hc]
        exact ih d ga hlnd.2
    · simp only [walkGrant, if_neg hd0]
      exact Or.inl trivial

/-! ### Lemmas about the round-robin fallback -/

lemma getSplit_default (f : SplitField) : getSplit f (default : Alloc) = 0 := by
  cases f <;> rfl

lemma size_default : (default : Alloc).size = 0 := rfl

lemma mem_of_rr_cond (f : SplitField) (ga : GA) (k : Key)
    (h : getSplit f (gaFind ga k) < (gaFind ga k).size) : k ∈ ga.map (fun p => p.1) := by
  by_contra hc
  rw [gaFind_not_mem ga k hc, getSplit_default, size_default] at h
  exact absurd h (lt_irrefl 0)

lemma rrCycle_cons (f : SplitField) (k : Key) (keys : List Key) (ga : GA) (d : ℤ) :
    rrCycle f (k :: keys) ga d =
      if d > 0 ∧ getSplit f (gaFind ga k) < (gaFind ga k).size
      then rrCycle f keys (gaUpdate ga k (grantOne f)) (d - 1)
      else rrCycle f keys ga d := by
  by_cases h : d > 0 ∧ getSplit f (gaFind ga k) < (gaFind ga k).size <;>
    simp [rrCycle, h]

lemma rrCycle_keys (f : SplitField) (keys : List Key) (ga : GA) (d : ℤ) :
    (rrCycle f keys ga d).1.map (fun kv => kv.1) = ga.map (fun kv => kv.1) := by
  induction keys generalizing ga d with
  | nil => rfl
  | cons k rest ih =>
    rw [rrCycle_cons]
    by_cases h : d > 0 ∧ getSplit f (gaFind ga k) < (gaFind ga k).size
    · rw [if_pos h, ih, gaUpdate_keys]
    · rw [if_neg h]
      exact ih ga d

lemma rrCycle_proj {β : Type} (f : SplitField) (proj : Alloc → β)
    (hu : ∀ a, proj (grantOne f a) = proj a) (keys : List Key) (ga : GA) (d : ℤ) :
    (rrCycle f keys ga d).1.map (fun kv => proj kv.2) = ga.map (fun kv => proj kv.2) := by
  induction keys generalizing ga d with
  | nil => rfl
  | cons k rest ih =>
    rw [rrCycle_cons]
    by_cases h : d > 0 ∧ getSplit f (gaFind ga k) < (gaFind ga k).size
    · rw [if_pos h, ih, gaUpdate_proj _ _ _ _ hu]
    · rw [if_neg h]
      exact ih ga d

lemma rrCycle_GAOK (f : SplitField) (keys : List Key) (ga : GA) (d : ℤ)
    (hnd : (ga.map (fun p => p.1)).Nodup) (hok : GAOK ga) :
    GAOK (rrCycle f keys ga d).1 := by
  induction keys generalizing ga d with
  | nil => exact hok
  | cons k rest ih =>
    rw [rrCycle_cons]
    by_cases h : d > 0 ∧ getSplit f (gaFind ga k) < (gaFind ga k).size
    · rw [if_pos h]
      have hok' : GAOK (gaUpdate ga k (grantOne f)) :=
        GAOK_gaUpdate ga k (grantOne f) hnd hok
          (allocOK_grantOne f _ (gaFind_OK ga hok k) h.2)
      have hnd' : ((gaUpdate ga k (grantOne f)).map (fun p => p.1)).Nodup := by
        rw [gaUpdate_keys]; exact hnd
      exact ih _ _ hnd' hok'
    · rw [if_neg h]
      exact ih ga d hnd hok

lemma rrCycle_sum (f : SplitField) (keys : List Key) (ga : GA) (d : ℤ)
    (hnd : (ga.map (fun p => p.1)).Nodup) :
    sumSplit f (rrCycle f keys ga d).1 =
      sumSplit f ga + (d - (rrCycle f keys ga d).2) := by
  induction keys generalizing ga d with
  | nil => simp [rrCycle]
  | cons k rest ih =>
    rw [rrCycle_cons]
    by_cases h : d > 0 ∧ getSplit f (gaFind ga k) < (gaFind ga k).size
    · rw [if_pos h]
      have hmem := mem_of_rr_cond f ga k h.2
      have hsum : sumSplit f (gaUpdate ga k (grantOne f)) = sumSplit f ga + 1 := by
        rw [sumSplit_gaUpdate f ga k (grantOne f) hnd hmem, getSplit_grantOne_same]
        omega
      have hnd' : ((gaUpdate ga k (grantOne f)).map (fun p => p.1)).Nodup := by
        rw [gaUpdate_keys]; exact hnd
      rw [ih _ _ hnd', hsum]
      omega
    · rw [if_neg h]
      exact ih ga d hnd

lemma rrCycle_d_bounds (f : SplitField) (keys : List Key) (ga : GA) (d : ℤ) (hd : 0 ≤ d) :
    0 ≤ (rrCycle f keys ga d).2 ∧ (rrCycle f keys ga d).2 ≤ d := by
  induction keys generalizing ga d with
  | nil => simp [rrCycle]; omega
  | cons k rest ih =>
    rw [rrCycle_cons]
    by_cases h : d > 0 ∧ getSplit f (gaFind ga k) < (gaFind ga k).size
    · rw [if_pos h]
      have := ih (gaUpdate ga k (grantOne f)) (d - 1) (by omega)
      omega
    · rw [if_neg h]
      exact ih ga d hd

lemma rrCycle_progress (f : SplitField) (keys : List Key) (ga : GA) (d : ℤ)
    (hd : 0 < d) (hnd : (ga.map (fun p => p.1)).Nodup)
    (hex : ∃ kv ∈ ga, kv.1 ∈ keys ∧ getSplit f kv.2 < kv.2.size) :
    (rrCycle f keys ga d).2 < d := by
  induction keys generalizing ga d with
  | nil =>
    obtain ⟨kv, _, hk, _⟩ := hex
    simp at hk
  | cons k rest ih =>
    rw [rrCycle_cons]
    by_cases h : d > 0 ∧ getSplit f (gaFind ga k) < (gaFind ga k).size
    · rw [if_pos h]
      have := rrCycle_d_bounds f rest (gaUpdate ga k (grantOne f)) (d - 1) (by omega)
      omega
    · rw [if_neg h]
      obtain ⟨kv, hkv, hk, hlt⟩ := hex
      rcases List.mem_cons.mp hk with hk1 | hk1
      · exfalso
        have : gaFind ga k = kv.2 := hk1 ▸ gaFind_of_mem ga kv hnd hkv
        exact h ⟨hd, this ▸ hlt⟩
      · exact ih ga d hd hnd ⟨kv, hkv, hk1, hlt⟩

lemma rrLoop_proj {β : Type} (f : SplitField) (proj : Alloc → β)
    (hu : ∀ a, proj (grantOne f a) = proj a) (keys : List Key) (fuel : ℕ) (ga : GA)
    (d : ℤ) (ga' : GA) (h : rrLoop f keys fuel ga d = some ga') :
    ga'.map (fun kv => proj kv.2) = ga.map (fun kv => proj kv.2) := by
  induction fuel generalizing ga d with
  | zero =>
    simp only [rrLoop] at h
    split_ifs at h
    · exact (Option.some_inj.mp h) ▸ rfl
  | succ fuel ih =>
    simp only [rrLoop] at h
    split_ifs at h with h1 h2
    · exact (Option.some_inj.mp h) ▸ rfl
    · rw [ih _ _ h, rrCycle_proj f proj hu]

lemma rrLoop_keys (f : SplitField) (keys : List Key) (fuel : ℕ) (ga : GA)
    (d : ℤ) (ga' : GA) (h : rrLoop f keys fuel ga d = some ga') :
    ga'.map (fun kv => kv.1) = ga.map (fun kv => kv.1) := by
  induction fuel generalizing ga d with
  | zero =>
    simp only [rrLoop] at h
    split_ifs at h
    · exact (Option.some_inj.mp h) ▸ rfl
  | succ fuel ih =>
    simp only [rrLoop] at h
    split_ifs at h with h1 h2
    · exact (Option.some_inj.mp h) ▸ rfl
    · rw [ih _ _ h, rrCycle_keys]

lemma rrLoop_some (f : SplitField) (keys : List Key) (fuel : ℕ) (ga : GA) (d : ℤ)
    (target : ℤ) (hnd : (ga.map (fun p => p.1)).Nodup) (hok : GAOK ga)
    (hkeys : keys = ga.map (fun p => p.1))
    (hsum : sumSplit f ga + d = target)
    (hsize : target ≤ (ga.map (fun kv => kv.2.size)).sum)
    (hd : 0 ≤ d) (hfuel : d ≤ (fuel : ℤ)) :
    ∃ ga', rrLoop f keys fuel ga d = some ga' ∧ sumSplit f ga' = target ∧ GAOK ga' := by
  induction fuel generalizing ga d with
  | zero =>
    have hd0 : d = 0 := by exact_mod_cast le_antisymm hfuel hd
    refine ⟨ga, ?_, by omega, hok⟩
    simp [rrLoop, hd0]
  | succ fuel ih =>
    by_cases hd0 : d ≤ 0
    · refine ⟨ga, ?_, by omega, hok⟩
      simp [rrLoop, hd0]
    · push_neg at hd0
      have hlt : sumSplit f ga < (ga.map (fun kv => kv.2.size)).sum := by omega
      obtain ⟨kv, hkv, hsplit⟩ := exists_lt_of_sumSplit_lt f ga hlt
      have hex : ∃ kv ∈ ga, kv.1 ∈ keys ∧ getSplit f kv.2 < kv.2.size :=
        ⟨kv, hkv, hkeys ▸ List.mem_map_of_mem (fun p => p.1) hkv, hsplit⟩
      have hprog := rrCycle_progress f keys ga d hd0 hnd hex
      have hbounds := rrCycle_d_bounds f keys ga d (le_of_lt hd0)
      have hcsum := rrCycle_sum f keys ga d hnd
      have hckeys := rrCycle_keys f keys ga d
      have hcok := rrCycle_GAOK f keys ga d hnd hok
      have hcsizes := rrCycle_proj f (fun a => a.size) (size_grantOne f) keys ga d
      set p := rrCycle f keys ga d with hp
      have hne : p.2 ≠ d := by omega
      have hrec := ih p.1 p.2
        (by rw [hckeys]; exact hnd)
        hcok
        (by rw [hckeys]; exact hkeys)
        (by omega)
        (by rw [hcsizes]; exact hsize)
        (by omega)
        (by omega)
      obtain ⟨ga', hga', hs', hok'⟩ := hrec
      refine ⟨ga', ?_, hs', hok'⟩
      simp only [rrLoop, if_neg (not_le.mpr hd0), if_neg hne]
      exact hga'

/-! ### Lemmas about a whole `adjust_for_target` pass -/

lemma fracsOf_keys (f : SplitField) (ga : GA) :
    (fracsOf f ga).map (fun x => x.2.1) = ga.map (fun p => p.1) := by
  simp [fracsOf, List.map_map]

lemma fracsOf_caps (f : SplitField) (ga : GA) (hnd : (ga.map (fun p => p.1)).Nodup) :
    ∀ x ∈ fracsOf f ga,
      x.2.2 ≤ (gaFind ga x.2.1).size - (gaFind ga x.2.1).train - (gaFind ga x.2.1).dev := by
  intro x hx
  obtain ⟨kv, hkv, hxe⟩ := List.mem_map.mp hx
  have hfind : gaFind ga kv.1 = kv.2 := gaFind_of_mem ga kv hnd hkv
  rw [← hxe]
  simp [hfind]

lemma adjust_some (f : SplitField) (target : ℤ) (ga : GA)
    (hnd : (ga.map (fun p => p.1)).Nodup) (hok : GAOK ga)
    (hd0 : 0 ≤ target - sumSplit f ga)
    (hsize : target ≤ (ga.map (fun kv => kv.2.size)).sum) :
    ∃ ga', adjust_for_target f target ga = some ga' ∧ sumSplit f ga' = target ∧ GAOK ga' ∧
      ga'.map (fun kv => kv.1) = ga.map (fun kv => kv.1) := by
  simp only [adjust_for_target]
  by_cases hdz : target - sumSplit f ga = 0
  · refine ⟨ga, by rw [if_pos hdz], by omega, hok, rfl⟩
  · rw [if_neg hdz]
    have hdpos : 0 < target - sumSplit f ga := lt_of_le_of_ne hd0 (Ne.symm hdz)
    have hperm : (sortDesc (fracsOf f ga)).Perm (fracsOf f ga) := sortDesc_perm _
    have hkeysperm : ((sortDesc (fracsOf f ga)).map (fun x => x.2.1)).Perm
        (ga.map (fun p => p.1)) := by
      rw [← fracsOf_keys f ga]
      exact hperm.map _
    have hlnd : ((sortDesc (fracsOf f ga)).map (fun x => x.2.1)).Nodup :=
      (hkeysperm.nodup_iff).mpr hnd
    have hkeysmem : ∀ x ∈ sortDesc (fracsOf f ga), x.2.1 ∈ ga.map (fun p => p.1) :=
      fun x hx => hkeysperm.subset (List.mem_map_of_mem _ hx)
    have hcaps : ∀ x ∈ sortDesc (fracsOf f ga),
        x.2.2 ≤ (gaFind ga x.2.1).size - (gaFind ga x.2.1).train - (gaFind ga x.2.1).dev :=
      fun x hx => fracsOf_caps f ga hnd x (hperm.subset hx)
    have hwsum := walkGrant_sum f (sortDesc (fracsOf f ga)) (target - sumSplit f ga) ga
      hnd hkeysmem
    have hwok := walkGrant_GAOK f (sortDesc (fracsOf f ga)) (target - sumSplit f ga) ga
      hnd hok hlnd hcaps
    have hwkeys := walkGrant_keys f (sortDesc (fracsOf f ga)) (target - sumSplit f ga) ga
    have hwb := walkGrant_d_bounds f (sortDesc (fracsOf f ga)) (target - sumSplit f ga) ga
      (le_of_lt hdpos)
    set w := walkGrant f (sortDesc (fracsOf f ga)) (target - sumSplit f ga) ga with hw
    by_cases hrr : w.2 > 0
    · rw [if_pos hrr]
      have hsizes := walkGrant_proj f (fun a => a.size) (size_grantOne f)
        (sortDesc (fracsOf f ga)) (target - sumSplit f ga) ga
      have hloop := rrLoop_some f (ga.map fun kv => kv.1) w.2.toNat w.1 w.2 target
        (by rw [hwkeys]; exact hnd) hwok (by rw [hwkeys])
        (by omega)
        (by
          have : (w.1.map (fun kv => kv.2.size)).sum = (ga.map (fun kv => kv.2.size)).sum := by
            rw [← hw] at hsizes
            rw [hsizes]
          omega)
        (le_of_lt hrr) (Int.self_le_toNat w.2)
      obtain ⟨ga', h1, h2, h3⟩ := hloop
      refine ⟨ga', h1, h2, h3, ?_⟩
      rw [rrLoop_keys f _ _ _ _ _ h1, hwkeys]
    · rw [if_neg hrr]
      refine ⟨w.1, rfl, by omega, hwok, hwkeys⟩

lemma adjust_proj {β : Type} (f : SplitField) (proj : Alloc → β)
    (hu : ∀ a, proj (grantOne f a) = proj a) (target : ℤ) (ga ga' : GA)
    (h : adjust_for_target f target ga = some ga') :
    ga'.map (fun kv => proj kv.2) = ga.map (fun kv => proj kv.2) := by
  simp only [adjust_for_target] at h
  split_ifs at h with h1 h2
  · have := Option.some_inj.mp h
    subst this
    rfl
  · rw [rrLoop_proj f proj hu _ _ _ _ _ h, walkGrant_proj f proj hu]
  · have := Option.some_inj.mp h
    subst this
    rw [walkGrant_proj f proj hu]

lemma adjust_keys (f : SplitField) (target : ℤ) (ga ga' : GA)
    (h : adjust_for_target f target ga = some ga') :
    ga'.map (fun kv => kv.1) = ga.map (fun kv => kv.1) := by
  simp only [adjust_for_target] at h
  split_ifs at h with h1 h2
  · have := Option.some_inj.mp h
    subst this
    rfl
  · rw [rrLoop_keys f _ _ _ _ _ h, walkGrant_keys]
  · have := Option.some_inj.mp h
    subst this
    rw [walkGrant_keys]

lemma adjust_find_or (f : SplitField) (target : ℤ) (ga ga' : GA)
    (hnd : (ga.map (fun p => p.1)).Nodup)
    (hd0 : 0 ≤ target - sumSplit f ga)
    (hE : target - sumSplit f ga ≤
      ((fracsOf f ga).countP (fun x => decide (0 < x.2.2)) : ℤ))
    (h : adjust_for_target f target ga = some ga') :
    ∀ j, gaFind ga' j = gaFind ga j ∨ gaFind ga' j = grantOne f (gaFind ga j) := by
  intro j
  simp only [adjust_for_target] at h
  by_cases h1 : target - sumSplit f ga = 0
  · rw [if_pos h1] at h
    have := Option.some_inj.mp h
    subst this
    exact Or.inl rfl
  · rw [if_neg h1] at h
    have hperm : (sortDesc (fracsOf f ga)).Perm (fracsOf f ga) := sortDesc_perm _
    have hcnt : (sortDesc (fracsOf f ga)).countP (fun x => decide (0 < x.2.2)) =
        (fracsOf f ga).countP (fun x => decide (0 < x.2.2)) :=
      hperm.countP_eq _
    have hz := walkGrant_d_zero f (sortDesc (fracsOf f ga)) (target - sumSplit f ga) ga
      hd0 (by rw [hcnt]; exact hE)
    rw [if_neg (by omega : ¬ (walkGrant f (sortDesc (fracsOf f ga))
      (target - sumSplit f ga) ga).2 > 0)] at h
    have := Option.some_inj.mp h
    subst this
    have hkeysperm : ((sortDesc (fracsOf f ga)).map (fun x => x.2.1)).Perm
        (ga.map (fun p => p.1)) := by
      rw [← fracsOf_keys f ga]
      exact hperm.map _
    have hlnd : ((sortDesc (fracsOf f ga)).map (fun x => x.2.1)).Nodup :=
      (hkeysperm.nodup_iff).mpr hnd
    exact walkGrant_find_or f _ _ ga hlnd j

/-! ### The initial allocation table and the two-pass master lemma -/

lemma sum_map_mul (xs : List ℕ) (c : ℚ) :
    (xs.map (fun x : ℕ => (x : ℚ) * c)).sum = (xs.sum : ℚ) * c := by
  induction xs with
  | nil => simp
  | cons x tl ih =>
    rw [List.map_cons, List.sum_cons, ih, List.sum_cons]
    push_cast
    ring

lemma groups_sizes_sum (items : List Item) :
    ((groupsOf items).map (fun g => g.2.length)).sum = items.length := by
  have hlen := (groupsOf_join items).length_eq
  rw [List.length_flatten] at hlen
  simpa [List.map_map, all_ids, Function.comp] using hlen

lemma initialGA_keys (fT fD : ℚ) (items : List Item) :
    (initialGA fT fD items).map (fun kv => kv.1) = (groupsOf items).map (fun g => g.1) := by
  simp [initialGA, List.map_map]

lemma initialGA_nodup (fT fD : ℚ) (items : List Item) :
    ((initialGA fT fD items).map (fun kv => kv.1)).Nodup := by
  rw [initialGA_keys]
  exact groupsOf_keys_nodup items

lemma cast_sum_int (xs : List ℕ) : (xs.map (fun x : ℕ => (x : ℤ))).sum = ((xs.sum : ℕ) : ℤ) := by
  induction xs with
  | nil => simp
  | cons x tl ih =>
    simp only [List.map_cons, List.sum_cons, ih]
    push_cast
    ring

lemma initialGA_sizes_sum (fT fD : ℚ) (items : List Item) :
    ((initialGA fT fD items).map (fun kv => kv.2.size)).sum = (items.length : ℤ) := by
  have h1 : (initialGA fT fD items).map (fun kv => kv.2.size) =
      ((groupsOf items).map (fun g => g.2.length)).map (fun x : ℕ => (x : ℤ)) := by
    simp [initialGA, List.map_map, initAlloc, Function.comp]
  rw [h1, cast_sum_int, groups_sizes_sum]

lemma initialGA_GAOK (fT fD : ℚ) (items : List Item)
    (hfT : 0 ≤ fT) (hfD : 0 ≤ fD) (hTD : fT + fD ≤ 1) : GAOK (initialGA fT fD items) := by
  intro kv hkv
  obtain ⟨g, _, hge⟩ := List.mem_map.mp hkv
  rw [← hge]
  have hfT1 : fT ≤ 1 := by linarith
  have hfD1 : fD ≤ 1 := by linarith
  have hg0 : (0 : ℚ) ≤ (g.2.length : ℚ) := by positivity
  have htr0 : 0 ≤ ⌊(g.2.length : ℚ) * fT⌋ := Int.floor_nonneg.mpr (mul_nonneg hg0 hfT)
  have hdv0 : 0 ≤ ⌊(g.2.length : ℚ) * fD⌋ := Int.floor_nonneg.mpr (mul_nonneg hg0 hfD)
  have htr1 : ⌊(g.2.length : ℚ) * fT⌋ ≤ (g.2.length : ℤ) := by
    have : (g.2.length : ℚ) * fT ≤ (g.2.length : ℚ) := by nlinarith
    calc ⌊(g.2.length : ℚ) * fT⌋ ≤ ⌊(g.2.length : ℚ)⌋ := Int.floor_le_floor this
      _ = (g.2.length : ℤ) := Int.floor_natCast g.2.length
  have hdv1 : ⌊(g.2.length : ℚ) * fD⌋ ≤ (g.2.length : ℤ) := by
    have : (g.2.length : ℚ) * fD ≤ (g.2.length : ℚ) := by nlinarith
    calc ⌊(g.2.length : ℚ) * fD⌋ ≤ ⌊(g.2.length : ℚ)⌋ := Int.floor_le_floor this
      _ = (g.2.length : ℤ) := Int.floor_natCast g.2.length
  exact ⟨htr0, hdv0, htr1, hdv1, rfl⟩

lemma sumSplit_train_eq (ga : GA) :
    sumSplit .train ga = (ga.map (fun kv => kv.2.train)).sum := by
  simp [sumSplit, getSplit]

lemma sumSplit_dev_eq (ga : GA) :
    sumSplit .dev ga = (ga.map (fun kv => kv.2.dev)).sum := by
  simp [sumSplit, getSplit]

lemma initialGA_sum_train (fT fD : ℚ) (items : List Item) :
    sumSplit .train (initialGA fT fD items) =
      (((groupsOf items).map (fun g => (g.2.length : ℚ) * fT)).map (fun q => ⌊q⌋)).sum := by
  simp only [sumSplit, initialGA, List.map_map]
  rfl

lemma initialGA_sum_dev (fT fD : ℚ) (items : List Item) :
    sumSplit .dev (initialGA fT fD items) =
      (((groupsOf items).map (fun g => (g.2.length : ℚ) * fD)).map (fun q => ⌊q⌋)).sum := by
  simp only [sumSplit, initialGA, List.map_map]
  rfl

lemma ideal_total (items : List Item) (c : ℚ) :
    ((groupsOf items).map (fun g => (g.2.length : ℚ) * c)).sum = (items.length : ℚ) * c := by
  have h1 : (groupsOf items).map (fun g => (g.2.length : ℚ) * c) =
      ((groupsOf items).map (fun g => g.2.length)).map (fun x : ℕ => (x : ℚ) * c) := by
    simp [List.map_map, Function.comp]
  rw [h1, sum_map_mul, groups_sizes_sum]

lemma floor_sum_le_target (items : List Item) (c : ℚ) :
    (((groupsOf items).map (fun g => (g.2.length : ℚ) * c)).map (fun q => ⌊q⌋)).sum ≤
      pyRound ((items.length : ℚ) * c) := by
  calc (((groupsOf items).map (fun g => (g.2.length : ℚ) * c)).map (fun q => ⌊q⌋)).sum
      ≤ ⌊((groupsOf items).map (fun g => (g.2.length : ℚ) * c)).sum⌋ :=
        sum_floor_le_floor_sum _
    _ = ⌊(items.length : ℚ) * c⌋ := by rw [ideal_total]
    _ ≤ pyRound ((items.length : ℚ) * c) := pyRound_ge_floor _

lemma target_le_card (n : ℕ) (c : ℚ) (hc1 : c ≤ 1) :
    pyRound ((n : ℚ) * c) ≤ (n : ℤ) := by
  calc pyRound ((n : ℚ) * c) ≤ ⌈(n : ℚ) * c⌉ := pyRound_le_ceil _
    _ ≤ (n : ℤ) := by
      rw [Int.ceil_le]
      push_cast
      nlinarith [Nat.cast_nonneg (α := ℚ) n]

lemma gaFind_proj_eq {β : Type} (proj : Alloc → β) (ga ga' : GA)
    (hk : ga.map (fun kv => kv.1) = ga'.map (fun kv => kv.1))
    (hp : ga.map (fun kv => proj kv.2) = ga'.map (fun kv => proj kv.2)) (j : Key) :
    proj (gaFind ga j) = proj (gaFind ga' j) := by
  induction ga generalizing ga' with
  | nil =>
    have : ga' = [] := by
      cases ga' with
      | nil => rfl
      | cons kv tl => simp at hk
    subst this
    rfl
  | cons kv tl ih =>
    cases ga' with
    | nil => simp at hk
    | cons kv' tl' =>
      simp only [List.map_cons, List.cons.injEq] at hk hp
      by_cases hj : kv.1 = j
      · rw [gaFind_cons_pos kv tl j hj, gaFind_cons_pos kv' tl' j (hk.1 ▸ hj)]
        exact hp.1
      · rw [gaFind_cons_neg kv tl j hj, gaFind_cons_neg kv' tl' j (hk.1 ▸ hj)]
        exact ih tl' hk.2 hp.2

lemma initialGA_find (fT fD : ℚ) (items : List Item) (j : Key)
    (h : j ∈ (initialGA fT fD items).map (fun kv => kv.1)) :
    ∃ g : ℕ, gaFind (initialGA fT fD items) j = initAlloc fT fD g := by
  obtain ⟨kv, hkv, hke⟩ := List.mem_map.mp h
  obtain ⟨grp, _, hge⟩ := List.mem_map.mp hkv
  have hfind : gaFind (initialGA fT fD items) kv.1 = kv.2 :=
    gaFind_of_mem _ kv (initialGA_nodup fT fD items) hkv
  refine ⟨grp.2.length, ?_⟩
  rw [hke] at hfind
  rw [hfind, ← hge]

lemma adjustedGA_some (fT fD : ℚ) (items : List Item)
    (hfT : 0 ≤ fT) (hfD : 0 ≤ fD) (hTD : fT + fD ≤ 1) :
    ∃ ga2, adjustedGA fT fD items = some ga2 ∧
      sumSplit .train ga2 = target_train fT items.length ∧
      sumSplit .dev ga2 = target_dev fD items.length ∧
      GAOK ga2 ∧
      ga2.map (fun kv => kv.1) = (initialGA fT fD items).map (fun kv => kv.1) ∧
      ga2.map (fun kv => kv.2.size) = (initialGA fT fD items).map (fun kv => kv.2.size) := by
  have hfT1 : fT ≤ 1 := by linarith
  have hfD1 : fD ≤ 1 := by linarith
  have h0nd := initialGA_nodup fT fD items
  have h0ok := initialGA_GAOK fT fD items hfT hfD hTD
  have hd0 : 0 ≤ target_train fT items.length - sumSplit .train (initialGA fT fD items) := by
    rw [initialGA_sum_train]
    have := floor_sum_le_target items fT
    unfold target_train
    omega
  have hsize0 : target_train fT items.length ≤
      ((initialGA fT fD items).map (fun kv => kv.2.size)).sum := by
    rw [initialGA_sizes_sum]
    exact target_le_card items.length fT hfT1
  obtain ⟨ga1, h1, hsum1, hok1, hkeys1⟩ :=
    adjust_some .train (target_train fT items.length) (initialGA fT fD items) h0nd h0ok hd0 hsize0
  have hdev1 : ga1.map (fun kv => kv.2.dev) =
      (initialGA fT fD items).map (fun kv => kv.2.dev) :=
    adjust_proj .train (fun a => a.dev) dev_grantOne_train _ _ _ h1
  have hsizes1 : ga1.map (fun kv => kv.2.size) =
      (initialGA fT fD items).map (fun kv => kv.2.size) :=
    adjust_proj .train (fun a => a.size) (size_grantOne .train) _ _ _ h1
  have hnd1 : (ga1.map (fun p => p.1)).Nodup := by
    rw [hkeys1]
    exact h0nd
  have hsumdev1 : sumSplit .dev ga1 = sumSplit .dev (initialGA fT fD items) := by
    rw [sumSplit_dev_eq, sumSplit_dev_eq, hdev1]
  have hd1 : 0 ≤ target_dev fD items.length - sumSplit .dev ga1 := by
    rw [hsumdev1, initialGA_sum_dev]
    have := floor_sum_le_target items fD
    unfold target_dev
    omega
  have hsize1 : target_dev fD items.length ≤ (ga1.map (fun kv => kv.2.size)).sum := by
    rw [hsizes1, initialGA_sizes_sum]
    exact target_le_card items.length fD hfD1
  obtain ⟨ga2, h2, hsum2, hok2, hkeys2⟩ :=
    adjust_some .dev (target_dev fD items.length) ga1 hnd1 hok1 hd1 hsize1
  have htr2 : ga2.map (fun kv => kv.2.train) = ga1.map (fun kv => kv.2.train) :=
    adjust_proj .dev (fun a => a.train) train_grantOne_dev _ _ _ h2
  have hsizes2 : ga2.map (fun kv => kv.2.size) = ga1.map (fun kv => kv.2.size) :=
    adjust_proj .dev (fun a => a.size) (size_grantOne .dev) _ _ _ h2
  refine ⟨ga2, ?_, ?_, hsum2, hok2, by rw [hkeys2, hkeys1], by rw [hsizes2, hsizes1]⟩
  · simp [adjustedGA, h1, h2]
  · rw [sumSplit_train_eq, htr2, ← sumSplit_train_eq, hsum1]

lemma reconPass_id (f : SplitField) (target sum0 : ℤ) (ga : GA) (h : sum0 = target) :
    reconPass f target sum0 ga = ga := by
  simp [reconPass, h]

lemma reconGA_some (fT fD : ℚ) (items : List Item)
    (hfT : 0 ≤ fT) (hfD : 0 ≤ fD) (hTD : fT + fD ≤ 1) :
    ∃ ga2, reconGA fT fD items = some ga2 ∧
      sumSplit .train ga2 = target_train fT items.length ∧
      sumSplit .dev ga2 = target_dev fD items.length ∧
      GAOK ga2 ∧
      ga2.map (fun kv => kv.1) = (initialGA fT fD items).map (fun kv => kv.1) ∧
      ga2.map (fun kv => kv.2.size) = (initialGA fT fD items).map (fun kv => kv.2.size) := by
  obtain ⟨ga2, h2, hsum1, hsum2, hok, hkeys, hsizes⟩ := adjustedGA_some fT fD items hfT hfD hTD
  refine ⟨ga2, ?_, hsum1, hsum2, hok, hkeys, hsizes⟩
  unfold reconGA
  rw [h2]
  simp only [Option.map_some']
  rw [reconPass_id _ _ _ ga2 hsum1, reconPass_id _ _ _ ga2 hsum2]

lemma deficit_le_count_train (fT fD : ℚ) (items : List Item)
    (hTD : fT + fD ≤ 1) :
    target_train fT items.length - sumSplit .train (initialGA fT fD items) ≤
      (((fracsOf .train (initialGA fT fD items)).countP
        (fun x => decide (0 < x.2.2))) : ℤ) := by
  set L := (groupsOf items).map (fun g => (g.2.length : ℚ) * fT) with hL
  have h1 : target_train fT items.length ≤ ⌈L.sum⌉ := by
    rw [hL, ideal_total]
    exact pyRound_le_ceil _
  have h2 := ceil_sum_le L
  have h3 : sumSplit .train (initialGA fT fD items) = (L.map (fun q => ⌊q⌋)).sum :=
    initialGA_sum_train fT fD items
  have h4 : (L.countP (fun q => decide ((⌊q⌋ : ℚ) < q)) : ℤ) ≤
      (((fracsOf .train (initialGA fT fD items)).countP (fun x => decide (0 < x.2.2))) : ℤ) := by
    have hfr : fracsOf .train (initialGA fT fD items) =
        (groupsOf items).map (fun g =>
          ((g.2.length : ℚ) * fT - (⌊(g.2.length : ℚ) * fT⌋ : ℚ), g.1,
            (g.2.length : ℤ) - ⌊(g.2.length : ℚ) * fT⌋ - ⌊(g.2.length : ℚ) * fD⌋)) := by
      simp [fracsOf, initialGA, List.map_map, initAlloc, idealOf, getSplit, Function.comp]
    rw [hL, hfr, List.countP_map, List.countP_map]
    have hmono : ∀ g ∈ groupsOf items,
        ((fun q => decide ((⌊q⌋ : ℚ) < q)) ∘ (fun g => (g.2.length : ℚ) * fT)) g = true →
        ((fun x : ℚ × Key × ℤ => decide (0 < x.2.2)) ∘ (fun g =>
          ((g.2.length : ℚ) * fT - (⌊(g.2.length : ℚ) * fT⌋ : ℚ), g.1,
            (g.2.length : ℤ) - ⌊(g.2.length : ℚ) * fT⌋ - ⌊(g.2.length : ℚ) * fD⌋))) g =
          true := by
      intro g _ hg
      simp only [Function.comp_apply, decide_eq_true_eq] at hg ⊢
      have hfD2 : (⌊(g.2.length : ℚ) * fD⌋ : ℚ) ≤ (g.2.length : ℚ) * fD := Int.floor_le _
      have hlen : (0 : ℚ) ≤ (g.2.length : ℚ) := by positivity
      have hsum : (⌊(g.2.length : ℚ) * fT⌋ : ℚ) + (⌊(g.2.length : ℚ) * fD⌋ : ℚ) <
          (g.2.length : ℚ) := by nlinarith
      have : ⌊(g.2.length : ℚ) * fT⌋ + ⌊(g.2.length : ℚ) * fD⌋ < (g.2.length : ℤ) := by
        exact_mod_cast hsum
      omega
    exact_mod_cast List.countP_mono_left hmono
  omega

lemma train_grantOne_train (a : Alloc) : (grantOne .train a).train = a.train + 1 := by
  simp [grantOne, addSplit, withTest]

lemma adjusted_train_bound (fT fD : ℚ) (items : List Item)
    (hTD : fT + fD ≤ 1) (ga2 : GA)
    (h : adjustedGA fT fD items = some ga2) :
    ∀ kv ∈ ga2, kv.2.train = ⌊(kv.2.size : ℚ) * fT⌋ ∨
      kv.2.train = ⌊(kv.2.size : ℚ) * fT⌋ + 1 := by
  intro kv hkv
  obtain ⟨ga1, h1, h2⟩ := Option.bind_eq_some.mp h
  have h0nd := initialGA_nodup fT fD items
  have hd0 : 0 ≤ target_train fT items.length - sumSplit .train (initialGA fT fD items) := by
    rw [initialGA_sum_train]
    have := floor_sum_le_target items fT
    unfold target_train
    omega
  have hor := adjust_find_or .train (target_train fT items.length) (initialGA fT fD items)
    ga1 h0nd hd0 (deficit_le_count_train fT fD items hTD) h1
  have hkeys1 := adjust_keys .train _ _ _ h1
  have hkeys2 := adjust_keys .dev _ _ _ h2
  have htr2 : ga2.map (fun kv => kv.2.train) = ga1.map (fun kv => kv.2.train) :=
    adjust_proj .dev (fun a => a.train) train_grantOne_dev _ _ _ h2
  have hsz1 : ga1.map (fun kv => kv.2.size) =
      (initialGA fT fD items).map (fun kv => kv.2.size) :=
    adjust_proj .train (fun a => a.size) (size_grantOne .train) _ _ _ h1
  have hsz2 : ga2.map (fun kv => kv.2.size) = ga1.map (fun kv => kv.2.size) :=
    adjust_proj .dev (fun a => a.size) (size_grantOne .dev) _ _ _ h2
  have hnd2 : (ga2.map (fun p => p.1)).Nodup := by
    rw [hkeys2, hkeys1]
    exact h0nd
  have hfind2 : gaFind ga2 kv.1 = kv.2 := gaFind_of_mem ga2 kv hnd2 hkv
  have htreq : (gaFind ga2 kv.1).train = (gaFind ga1 kv.1).train :=
    gaFind_proj_eq (fun a => a.train) ga2 ga1 (by rw [hkeys2]) htr2 kv.1
  have hszeq : (gaFind ga2 kv.1).size = (gaFind (initialGA fT fD items) kv.1).size := by
    have e1 : (gaFind ga2 kv.1).size = (gaFind ga1 kv.1).size :=
      gaFind_proj_eq (fun a => a.size) ga2 ga1 (by rw [hkeys2]) hsz2 kv.1
    have e2 : (gaFind ga1 kv.1).size = (gaFind (initialGA fT fD items) kv.1).size :=
      gaFind_proj_eq (fun a => a.size) ga1 (initialGA fT fD items) (by rw [hkeys1]) hsz1 kv.1
    rw [e1, e2]
  have hmem0 : kv.1 ∈ (initialGA fT fD items).map (fun kv => kv.1) := by
    rw [← hkeys1, ← hkeys2]
    exact List.mem_map_of_mem _ hkv
  obtain ⟨g, hg⟩ := initialGA_find fT fD items kv.1 hmem0
  have hszg : kv.2.size = (g : ℤ) := by
    rw [← hfind2, hszeq, hg]
    rfl
  have htrg : ⌊(g : ℚ) * fT⌋ = ⌊(kv.2.size : ℚ) * fT⌋ := by
    rw [hszg]
    norm_num
  rcases hor kv.1 with hcase | hcase
  · left
    calc kv.2.train = (gaFind ga2 kv.1).train := by rw [hfind2]
      _ = (gaFind ga1 kv.1).train := htreq
      _ = (gaFind (initialGA fT fD items) kv.1).train := by rw [hcase]
      _ = (initAlloc fT fD g).train := by rw [hg]
      _ = ⌊(g : ℚ) * fT⌋ := rfl
      _ = ⌊(kv.2.size : ℚ) * fT⌋ := htrg
  · right
    calc kv.2.train = (gaFind ga2 kv.1).train := by rw [hfind2]
      _ = (gaFind ga1 kv.1).train := htreq
      _ = (grantOne .train (gaFind (initialGA fT fD items) kv.1)).train := by rw [hcase]
      _ = (gaFind (initialGA fT fD items) kv.1).train + 1 := train_grantOne_train _
      _ = (initAlloc fT fD g).train + 1 := by rw [hg]
      _ = ⌊(g : ℚ) * fT⌋ + 1 := rfl
      _ = ⌊(kv.2.size : ℚ) * fT⌋ + 1 := by rw [htrg]

/-! ### Lemmas about assignment, slicing into chunks and partition assembly -/

lemma perm_flatten_of_perm {α : Type} {l₁ l₂ : List (List α)} (h : l₁.Perm l₂) :
    l₁.flatten.Perm l₂.flatten := by
  induction h with
  | nil => exact List.Perm.refl _
  | cons x _ ih => simpa using ih.append_left x
  | swap x y l =>
    simp only [List.flatten_cons, ← List.append_assoc]
    exact (List.perm_append_comm).append_right _
  | trans _ _ ih1 ih2 => exact ih1.trans ih2

lemma assignIds_perm {S : Type} (ga : GA) (shuf : S → List ℕ → List ℕ × S)
    (hshuf : ∀ s l, (shuf s l).1.Perm l) (hok : GAOK ga) :
    ∀ (s : S) (gs : List (Key × List ℕ)),
      ((assignIds ga shuf s gs).1 ++
        ((assignIds ga shuf s gs).2.1 ++ (assignIds ga shuf s gs).2.2)).Perm
        ((gs.map (fun g => g.2)).flatten) := by
  intro s gs
  induction gs generalizing s with
  | nil => simp [assignIds]
  | cons g rest ih =>
    simp only [assignIds, List.map_cons, List.flatten_cons]
    have ha := gaFind_OK ga hok g.1
    have hchunk : pySliceTo (shuf s g.2).1 (gaFind ga g.1).train ++
        (pySlice (shuf s g.2).1 (gaFind ga g.1).train
          ((gaFind ga g.1).train + (gaFind ga g.1).dev) ++
         pySliceFrom (shuf s g.2).1 ((gaFind ga g.1).train + (gaFind ga g.1).dev)) =
        (shuf s g.2).1 :=
      slice_partition _ _ _ ha.1 ha.2.1
    refine (three_append_interchange _ _ _ _ _ _).trans ?_
    rw [hchunk]
    exact ((hshuf s g.2).append_right _).trans
      (((ih (shuf s g.2).2).append_left g.2))

lemma assignIds_congr {S : Type} (ga : GA) (shuf1 shuf2 : S → List ℕ → List ℕ × S)
    (hf : ∀ s l, shuf1 s l = shuf2 s l) :
    ∀ (s : S) (gs : List (Key × List ℕ)), assignIds ga shuf1 s gs = assignIds ga shuf2 s gs := by
  intro s gs
  induction gs generalizing s with
  | nil => rfl
  | cons g rest ih =>
    simp only [assignIds, hf s g.2]
    rw [ih (shuf2 s g.2).2]

lemma id_to_item_head (it : Item) (tl : List Item)
    (hnm : it.id ∉ tl.map Item.id) : id_to_item (it :: tl) it.id = it := by
  unfold id_to_item
  rw [List.filter_cons_of_pos (by simp)]
  have hnil : tl.filter (fun x => decide (x.id = it.id)) = [] := by
    rw [List.filter_eq_nil_iff]
    intro x hx
    simp only [decide_eq_true_eq]
    intro he
    exact hnm (he ▸ List.mem_map_of_mem Item.id hx)
  rw [hnil]
  rfl

lemma id_to_item_tail (it : Item) (tl : List Item) (i : ℕ) (hne : it.id ≠ i) :
    id_to_item (it :: tl) i = id_to_item tl i := by
  unfold id_to_item
  rw [List.filter_cons_of_neg (by simpa using hne)]

lemma partitionOf_filter (items : List Item) (pids : List ℕ)
    (hids : (items.map Item.id).Nodup) :
    partitionOf items pids = items.filter (fun it => decide (it.id ∈ pids)) := by
  unfold partitionOf all_ids
  induction items with
  | nil => rfl
  | cons it tl ih =>
    simp only [List.map_cons, List.nodup_cons] at hids
    simp only [List.map_cons]
    have htail : ∀ i ∈ (tl.map Item.id).filter (fun i => decide (i ∈ pids)),
        id_to_item (it :: tl) i = id_to_item tl i := by
      intro i hi
      have hitl : i ∈ tl.map Item.id := List.mem_of_mem_filter hi
      exact id_to_item_tail it tl i (fun he => hids.1 (he ▸ hitl))
    by_cases hm : it.id ∈ pids
    · rw [List.filter_cons_of_pos (by simpa using hm),
        List.filter_cons_of_pos (by simpa using hm), List.map_cons,
        id_to_item_head it tl hids.1, List.map_congr_left htail, ih hids.2]
    · rw [List.filter_cons_of_neg (by simpa using hm),
        List.filter_cons_of_neg (by simpa using hm), List.map_congr_left htail, ih hids.2]

lemma filter_three_perm (l u v w : List ℕ)
    (hone : ∀ x ∈ l,
      (x ∈ u ∧ x ∉ v ∧ x ∉ w) ∨ (x ∉ u ∧ x ∈ v ∧ x ∉ w) ∨ (x ∉ u ∧ x ∉ v ∧ x ∈ w)) :
    (l.filter (fun x => decide (x ∈ u)) ++
      (l.filter (fun x => decide (x ∈ v)) ++ l.filter (fun x => decide (x ∈ w)))).Perm l := by
  induction l with
  | nil => simp
  | cons x tl ih =>
    have ihtl := ih (fun y hy => hone y (List.mem_cons_of_mem x hy))
    rcases hone x (List.mem_cons_self x tl) with ⟨h1, h2, h3⟩ | ⟨h1, h2, h3⟩ | ⟨h1, h2, h3⟩
    · rw [List.filter_cons_of_pos (by simpa using h1),
        List.filter_cons_of_neg (by simpa using h2),
        List.filter_cons_of_neg (by simpa using h3)]
      exact (ihtl.cons x)
    · rw [List.filter_cons_of_neg (by simpa using h1),
        List.filter_cons_of_pos (by simpa using h2),
        List.filter_cons_of_neg (by simpa using h3)]
      exact List.perm_middle.trans (ihtl.cons x)
    · rw [List.filter_cons_of_neg (by simpa using h1),
        List.filter_cons_of_neg (by simpa using h2),
        List.filter_cons_of_pos (by simpa using h3)]
      exact ((List.Perm.append_left _ List.perm_middle).trans List.perm_middle).trans
        (ihtl.cons x)

lemma nodup_three_cases (u v w : List ℕ) (hnd : (u ++ (v ++ w)).Nodup) (x : ℕ)
    (hx : x ∈ u ++ (v ++ w)) :
    (x ∈ u ∧ x ∉ v ∧ x ∉ w) ∨ (x ∉ u ∧ x ∈ v ∧ x ∉ w) ∨ (x ∉ u ∧ x ∉ v ∧ x ∈ w) := by
  rw [List.nodup_append] at hnd
  obtain ⟨hu, hvw, hduvw⟩ := hnd
  rw [List.nodup_append] at hvw
  obtain ⟨hv, hw, hdvw⟩ := hvw
  rcases List.mem_append.mp hx with h | h
  · have hnv : x ∉ v := fun h2 => hduvw h (List.mem_append.mpr (Or.inl h2))
    have hnw : x ∉ w := fun h2 => hduvw h (List.mem_append.mpr (Or.inr h2))
    exact Or.inl ⟨h, hnv, hnw⟩
  · rcases List.mem_append.mp h with h2 | h2
    · refine Or.inr (Or.inl ⟨?_, h2, hdvw h2⟩)
      intro hu2
      exact hduvw hu2 (List.mem_append.mpr (Or.inl h2))
    · refine Or.inr (Or.inr ⟨?_, ?_, h2⟩)
      · intro hu2
        exact hduvw hu2 (List.mem_append.mpr (Or.inr h2))
      · intro hv2
        exact hdvw hv2 h2

/-! ### Master lemmas about the full pipeline -/

lemma assigned_perm_all_ids {S : Type} (shuf : S → List ℕ → List ℕ × S)
    (seed : S) (items : List Item) (ga4 : GA) (hok : GAOK ga4)
    (hshuf : ∀ s l, (shuf s l).1.Perm l) :
    (((assignIds ga4 shuf seed (sortByKey (groupsOf items))).1 ++
      ((assignIds ga4 shuf seed (sortByKey (groupsOf items))).2.1 ++
       (assignIds ga4 shuf seed (sortByKey (groupsOf items))).2.2))).Perm (all_ids items) := by
  have h1 := assignIds_perm ga4 shuf hshuf hok seed (sortByKey (groupsOf items))
  have h2 : (((sortByKey (groupsOf items)).map (fun g => g.2)).flatten).Perm
      (((groupsOf items).map (fun g => g.2)).flatten) :=
    perm_flatten_of_perm ((sortByKey_perm (groupsOf items)).map _)
  exact h1.trans (h2.trans (groupsOf_join items))

lemma create_splits_filters {S : Type} (fT fD : ℚ) (shuf : S → List ℕ → List ℕ × S)
    (seed : S) (items : List Item)
    (hfT : 0 ≤ fT) (hfD : 0 ≤ fD) (hTD : fT + fD ≤ 1)
    (hshuf : ∀ s l, (shuf s l).1.Perm l)
    (hids : (items.map Item.id).Nodup) :
    ∃ u v w : List ℕ,
      (u ++ (v ++ w)).Perm (all_ids items) ∧ (u ++ (v ++ w)).Nodup ∧
      create_splits fT fD shuf seed items =
        some (items.filter (fun it => decide (it.id ∈ u)),
              items.filter (fun it => decide (it.id ∈ v)),
              items.filter (fun it => decide (it.id ∈ w))) := by
  obtain ⟨ga4, hrec, _, _, hok, _, _⟩ := reconGA_some fT fD items hfT hfD hTD
  set asg := assignIds ga4 shuf seed (sortByKey (groupsOf items)) with hasg
  have hperm : (asg.1 ++ (asg.2.1 ++ asg.2.2)).Perm (all_ids items) :=
    assigned_perm_all_ids shuf seed items ga4 hok hshuf
  have hnd : (asg.1 ++ (asg.2.1 ++ asg.2.2)).Nodup := (hperm.nodup_iff).mpr hids
  have hlen : ((asg.1 ++ asg.2.1 ++ asg.2.2).dedup).length = items.length := by
    rw [List.append_assoc]
    rw [List.dedup_eq_self.mpr hnd, hperm.length_eq]
    exact List.length_map items Item.id
  refine ⟨asg.1, asg.2.1, asg.2.2, hperm, hnd, ?_⟩
  rw [create_splits, hrec, Option.some_bind]
  simp only [← hasg, if_pos hlen]
  rw [partitionOf_filter items asg.1 hids, partitionOf_filter items asg.2.1 hids,
    partitionOf_filter items asg.2.2 hids]

lemma create_splits_none_of_dup {S : Type} (fT fD : ℚ) (shuf : S → List ℕ → List ℕ × S)
    (seed : S) (items : List Item)
    (hfT : 0 ≤ fT) (hfD : 0 ≤ fD) (hTD : fT + fD ≤ 1)
    (hshuf : ∀ s l, (shuf s l).1.Perm l)
    (hdup : ¬ (items.map Item.id).Nodup) :
    create_splits fT fD shuf seed items = none := by
  obtain ⟨ga4, hrec, _, _, hok, _, _⟩ := reconGA_some fT fD items hfT hfD hTD
  set asg := assignIds ga4 shuf seed (sortByKey (groupsOf items)) with hasg
  have hperm : (asg.1 ++ (asg.2.1 ++ asg.2.2)).Perm (all_ids items) :=
    assigned_perm_all_ids shuf seed items ga4 hok hshuf
  have hlen : ((asg.1 ++ asg.2.1 ++ asg.2.2).dedup).length < items.length := by
    rw [List.append_assoc]
    have hdperm : ((asg.1 ++ (asg.2.1 ++ asg.2.2)).dedup).Perm ((all_ids items).dedup) :=
      hperm.dedup
    rw [hdperm.length_eq]
    have hsub : (all_ids items).dedup.Sublist (all_ids items) := List.dedup_sublist _
    have hle := hsub.length_le
    have hne : (all_ids items).dedup ≠ all_ids items := by
      intro he
      exact hdup (List.dedup_eq_self.mp he)
    have hlt : (all_ids items).dedup.length < (all_ids items).length := by
      rcases lt_or_eq_of_le hle with h | h
      · exact h
      · exact absurd (hsub.eq_of_length h) hne
    calc (all_ids items).dedup.length < (all_ids items).length := hlt
      _ = items.length := List.length_map items Item.id
  rw [create_splits, hrec, Option.some_bind]
  simp only [← hasg]
  rw [if_neg (by omega)]

/-! ### Concrete evaluations of the pipeline -/

lemma pool3_recon : reconGA (1/2) (1/2) pool3 = some ga3_final := by
  have hg : groupsOf pool3 = [(("a","t"),[0]), (("b","t"),[1]), (("c","t"),[2])] := by decide
  have h0 : initialGA (1/2) (1/2) pool3 =
      [(("a","t"), ⟨1, 1/2, 1/2, 0, 0, 1⟩), (("b","t"), ⟨1, 1/2, 1/2, 0, 0, 1⟩),
       (("c","t"), ⟨1, 1/2, 1/2, 0, 0, 1⟩)] := by
    rw [initialGA, hg]
    norm_num [initAlloc, List.map]
  have hT : target_train (1/2) pool3.length = 2 := by
    norm_num [target_train, pyRound, Int.floor_eq_iff, pool3, mkItem]
  have hD : target_dev (1/2) pool3.length = 2 := by
    norm_num [target_dev, pyRound, Int.floor_eq_iff, pool3, mkItem]
  have ha1 : adjust_for_target .train 2
      [(("a","t"), ⟨1, 1/2, 1/2, 0, 0, 1⟩), (("b","t"), ⟨1, 1/2, 1/2, 0, 0, 1⟩),
       (("c","t"), ⟨1, 1/2, 1/2, 0, 0, 1⟩)] = some
      [(("a","t"), ⟨1, 1/2, 1/2, 1, 0, 0⟩), (("b","t"), ⟨1, 1/2, 1/2, 1, 0, 0⟩),
       (("c","t"), ⟨1, 1/2, 1/2, 0, 0, 1⟩)] := by
    norm_num only [adjust_for_target, sumSplit, getSplit, List.map, List.sum]
    norm_num only [fracsOf, idealOf, getSplit, List.map, sortDesc, insDesc, List.foldr]
    simp +decide [walkGrant, gaUpdate, grantOne, addSplit, withTest]
  have ha2 : adjust_for_target .dev 2
      [(("a","t"), ⟨1, 1/2, 1/2, 1, 0, 0⟩), (("b","t"), ⟨1, 1/2, 1/2, 1, 0, 0⟩),
       (("c","t"), ⟨1, 1/2, 1/2, 0, 0, 1⟩)] = some ga3_final := by
    norm_num only [adjust_for_target, sumSplit, getSplit, List.map, List.sum]
    norm_num only [fracsOf, idealOf, getSplit, List.map, sortDesc, insDesc, List.foldr]
    simp +decide [walkGrant, gaUpdate, grantOne, addSplit, withTest, rrLoop, rrCycle,
      gaFind, List.find?, getSplit, List.foldl, ga3_final]
  unfold reconGA adjustedGA
  rw [h0, hT, hD, ha1, Option.some_bind, ha2, Option.map_some']
  rw [reconPass_id _ _ _ ga3_final (by norm_num [sumSplit, getSplit, ga3_final]),
    reconPass_id _ _ _ ga3_final (by norm_num [sumSplit, getSplit, ga3_final])]

lemma pool3_run : create_splits (1/2) (1/2) idShuffle () pool3 =
    some ([mkItem 0 "a" "t", mkItem 1 "b" "t"], [mkItem 2 "c" "t"], []) := by
  have hs : sortByKey (groupsOf pool3) =
      [(("a","t"),[0]), (("b","t"),[1]), (("c","t"),[2])] := by decide
  have hasg : assignIds ga3_final idShuffle ()
      [(("a","t"),[0]), (("b","t"),[1]), (("c","t"),[2])] = ([0,1],[2],[]) := by
    simp +decide [assignIds, gaFind, List.find?, idShuffle, pySliceTo, pySlice, pySliceFrom,
      pyIdx, ga3_final]
  have hp1 : partitionOf pool3 [0,1] = [mkItem 0 "a" "t", mkItem 1 "b" "t"] := by decide
  have hp2 : partitionOf pool3 [2] = [mkItem 2 "c" "t"] := by decide
  have hp3 : partitionOf pool3 [] = [] := by decide
  rw [create_splits, pool3_recon, Option.some_bind, hs, hasg]
  simp +decide [hp1, hp2, hp3, pool3]

lemma pool10_groups : groupsOf pool10 =
    [(("easy","production"), [0,1,2,3,4,5,6]), (("hard","production"), [7,8,9])] := by
  decide

lemma pool10_initial : initialGA TRAIN_FRAC DEV_FRAC pool10 = ga10_init := by
  rw [initialGA, pool10_groups]
  norm_num [initAlloc, List.map, ga10_init, TRAIN_FRAC, DEV_FRAC]

lemma pool10_len : pool10.length = 10 := by decide

lemma pool10_target_train : target_train TRAIN_FRAC pool10.length = 7 := by
  rw [pool10_len]
  norm_num [target_train, pyRound, TRAIN_FRAC, Int.floor_eq_iff]

lemma pool10_target_dev : target_dev DEV_FRAC pool10.length = 2 := by
  rw [pool10_len]
  norm_num [target_dev, pyRound, DEV_FRAC, Int.floor_eq_iff]

lemma pool10_adjust_train : adjust_for_target .train 7 ga10_init = some ga10_mid := by
  norm_num only [adjust_for_target, sumSplit, getSplit, ga10_init, List.map, List.sum]
  norm_num only [fracsOf, idealOf, getSplit, List.map, sortDesc, insDesc, List.foldr]
  simp +decide [walkGrant, gaUpdate, grantOne, addSplit, withTest, ga10_mid]

lemma pool10_adjust_dev : adjust_for_target .dev 2 ga10_mid = some ga10_final := by
  norm_num only [adjust_for_target, sumSplit, getSplit, ga10_mid, List.map, List.sum]
  norm_num only [fracsOf, idealOf, getSplit, List.map, sortDesc, insDesc, List.foldr]
  simp +decide [walkGrant, gaUpdate, grantOne, addSplit, withTest, ga10_final]

lemma pool10_adjusted : adjustedGA TRAIN_FRAC DEV_FRAC pool10 = some ga10_final := by
  unfold adjustedGA
  rw [pool10_initial, pool10_target_train, pool10_target_dev, pool10_adjust_train,
    Option.some_bind, pool10_adjust_dev]

lemma pool3_bad_recon : reconGA (1/2) (1/5) pool3 = some
    [(("a","t"), ⟨1, 1/2, 1/5, 1, 0, 0⟩), (("b","t"), ⟨1, 1/2, 1/5, 1, 0, 0⟩),
     (("c","t"), ⟨1, 1/2, 1/5, 0, 1, 0⟩)] := by
  have hg : groupsOf pool3 = [(("a","t"),[0]), (("b","t"),[1]), (("c","t"),[2])] := by decide
  have h0 : initialGA (1/2) (1/5) pool3 =
      [(("a","t"), ⟨1, 1/2, 1/5, 0, 0, 1⟩), (("b","t"), ⟨1, 1/2, 1/5, 0, 0, 1⟩),
       (("c","t"), ⟨1, 1/2, 1/5, 0, 0, 1⟩)] := by
    rw [initialGA, hg]
    norm_num [initAlloc, List.map]
  have hT : target_train (1/2) pool3.length = 2 := by
    norm_num [target_train, pyRound, Int.floor_eq_iff, pool3, mkItem]
  have hD : target_dev (1/5) pool3.length = 1 := by
    norm_num [target_dev, pyRound, Int.floor_eq_iff, pool3, mkItem]
  have ha1 : adjust_for_target .train 2
      [(("a","t"), ⟨1, 1/2, 1/5, 0, 0, 1⟩), (("b","t"), ⟨1, 1/2, 1/5, 0, 0, 1⟩),
       (("c","t"), ⟨1, 1/2, 1/5, 0, 0, 1⟩)] = some
      [(("a","t"), ⟨1, 1/2, 1/5, 1, 0, 0⟩), (("b","t"), ⟨1, 1/2, 1/5, 1, 0, 0⟩),
       (("c","t"), ⟨1, 1/2, 1/5, 0, 0, 1⟩)] := by
    norm_num only [adjust_for_target, sumSplit, getSplit, List.map, List.sum]
    norm_num only [fracsOf, idealOf, getSplit, List.map, sortDesc, insDesc, List.foldr]
    simp +decide [walkGrant, gaUpdate, grantOne, addSplit, withTest]
  have ha2 : adjust_for_target .dev 1
      [(("a","t"), ⟨1, 1/2, 1/5, 1, 0, 0⟩), (("b","t"), ⟨1, 1/2, 1/5, 1, 0, 0⟩),
       (("c","t"), ⟨1, 1/2, 1/5, 0, 0, 1⟩)] = some
      [(("a","t"), ⟨1, 1/2, 1/5, 1, 0, 0⟩), (("b","t"), ⟨1, 1/2, 1/5, 1, 0, 0⟩),
       (("c","t"), ⟨1, 1/2, 1/5, 0, 1, 0⟩)] := by
    norm_num only [adjust_for_target, sumSplit, getSplit, List.map, List.sum]
    norm_num only [fracsOf, idealOf, getSplit, List.map, sortDesc, insDesc, List.foldr]
    simp +decide [walkGrant, gaUpdate, grantOne, addSplit, withTest]
  unfold reconGA adjustedGA
  rw [h0, hT, hD, ha1, Option.some_bind, ha2, Option.map_some']
  rw [reconPass_id _ _ _ _ (by norm_num [sumSplit, getSplit]),
    reconPass_id _ _ _ _ (by norm_num [sumSplit, getSplit])]

lemma pool3_bad_run : create_splits (1/2) (1/5) idShuffle () pool3 =
    some ([mkItem 0 "a" "t", mkItem 1 "b" "t"], [mkItem 2 "c" "t"], []) := by
  have hs : sortByKey (groupsOf pool3) =
      [(("a","t"),[0]), (("b","t"),[1]), (("c","t"),[2])] := by decide
  have hasg : assignIds
      [(("a","t"), (⟨1, 1/2, 1/5, 1, 0, 0⟩ : Alloc)), (("b","t"), ⟨1, 1/2, 1/5, 1, 0, 0⟩),
       (("c","t"), ⟨1, 1/2, 1/5, 0, 1, 0⟩)] idShuffle ()
      [(("a","t"),[0]), (("b","t"),[1]), (("c","t"),[2])] = ([0,1],[2],[]) := by
    simp +decide [assignIds, gaFind, List.find?, idShuffle, pySliceTo, pySlice, pySliceFrom,
      pyIdx]
  have hp1 : partitionOf pool3 [0,1] = [mkItem 0 "a" "t", mkItem 1 "b" "t"] := by decide
  have hp2 : partitionOf pool3 [2] = [mkItem 2 "c" "t"] := by decide
  have hp3 : partitionOf pool3 [] = [] := by decide
  rw [create_splits, pool3_bad_recon, Option.some_bind, hs, hasg]
  simp +decide [hp1, hp2, hp3, pool3]

lemma pool1_recon : reconGA TRAIN_FRAC DEV_FRAC pool1 = some
    [(("easy","production"), ⟨1, 7/10, 3/20, 1, 0, 0⟩)] := by
  have hg : groupsOf pool1 = [(("easy","production"), [5])] := by decide
  have h0 : initialGA TRAIN_FRAC DEV_FRAC pool1 =
      [(("easy","production"), ⟨1, 7/10, 3/20, 0, 0, 1⟩)] := by
    rw [initialGA, hg]
    norm_num [initAlloc, List.map, TRAIN_FRAC, DEV_FRAC]
  have hT : target_train TRAIN_FRAC pool1.length = 1 := by
    norm_num [target_train, pyRound, Int.floor_eq_iff, pool1, mkItem, TRAIN_FRAC]
  have hD : target_dev DEV_FRAC pool1.length = 0 := by
    norm_num [target_dev, pyRound, Int.floor_eq_iff, pool1, mkItem, DEV_FRAC]
  have ha1 : adjust_for_target .train 1
      [(("easy","production"), (⟨1, 7/10, 3/20, 0, 0, 1⟩ : Alloc))] = some
      [(("easy","production"), ⟨1, 7/10, 3/20, 1, 0, 0⟩)] := by
    norm_num only [adjust_for_target, sumSplit, getSplit, List.map, List.sum]
    norm_num only [fracsOf, idealOf, getSplit, List.map, sortDesc, insDesc, List.foldr]
    simp +decide [walkGrant, gaUpdate, grantOne, addSplit, withTest]
  have ha2 : adjust_for_target .dev 0
      [(("easy","production"), (⟨1, 7/10, 3/20, 1, 0, 0⟩ : Alloc))] = some
      [(("easy","production"), ⟨1, 7/10, 3/20, 1, 0, 0⟩)] := by
    norm_num [adjust_for_target, sumSplit, getSplit, List.map, List.sum]
  unfold reconGA adjustedGA
  rw [h0, hT, hD, ha1, Option.some_bind, ha2, Option.map_some']
  rw [reconPass_id _ _ _ _ (by norm_num [sumSplit, getSplit]),
    reconPass_id _ _ _ _ (by norm_num [sumSplit, getSplit])]

lemma pool1_run : create_splits TRAIN_FRAC DEV_FRAC idShuffle () pool1 =
    some ([mkItem 5 "easy" "production"], [], []) := by
  have hs : sortByKey (groupsOf pool1) = [(("easy","production"), [5])] := by decide
  have hasg : assignIds [(("easy","production"), (⟨1, 7/10, 3/20, 1, 0, 0⟩ : Alloc))]
      idShuffle () [(("easy","production"), [5])] = ([5],[],[]) := by
    simp +decide [assignIds, gaFind, List.find?, idShuffle, pySliceTo, pySlice, pySliceFrom,
      pyIdx]
  have hp1 : partitionOf pool1 [5] = [mkItem 5 "easy" "production"] := by decide
  have hp3 : partitionOf pool1 [] = [] := by decide
  rw [create_splits, pool1_recon, Option.some_bind, hs, hasg]
  simp +decide [hp1, hp3, pool1]

lemma rawEmptyKey_strip :
    rawEmptyKey.map stripRaw = [mkItem 0 "" "t", mkItem 1 "easy" "t", mkItem 2 "easy" "t"] := by
  decide

lemma rawEmptyKey_recon : reconGA TRAIN_FRAC DEV_FRAC (rawEmptyKey.map stripRaw) = some
    [(("","t"), ⟨1, 7/10, 3/20, 1, 0, 0⟩), (("easy","t"), ⟨2, 14/10, 6/20, 1, 0, 1⟩)] := by
  have hg : groupsOf (rawEmptyKey.map stripRaw) =
      [(("","t"), [0]), (("easy","t"), [1, 2])] := by decide
  have h0 : initialGA TRAIN_FRAC DEV_FRAC (rawEmptyKey.map stripRaw) =
      [(("","t"), ⟨1, 7/10, 3/20, 0, 0, 1⟩), (("easy","t"), ⟨2, 14/10, 6/20, 1, 0, 1⟩)] := by
    rw [initialGA, hg]
    norm_num [initAlloc, List.map, TRAIN_FRAC, DEV_FRAC]
  have hlen : (rawEmptyKey.map stripRaw).length = 3 := by decide
  have hT : target_train TRAIN_FRAC (rawEmptyKey.map stripRaw).length = 2 := by
    rw [hlen]
    norm_num [target_train, pyRound, Int.floor_eq_iff, TRAIN_FRAC]
  have hD : target_dev DEV_FRAC (rawEmptyKey.map stripRaw).length = 0 := by
    rw [hlen]
    norm_num [target_dev, pyRound, Int.floor_eq_iff, DEV_FRAC]
  have ha1 : adjust_for_target .train 2
      [(("","t"), (⟨1, 7/10, 3/20, 0, 0, 1⟩ : Alloc)),
       (("easy","t"), ⟨2, 14/10, 6/20, 1, 0, 1⟩)] = some
      [(("","t"), ⟨1, 7/10, 3/20, 1, 0, 0⟩), (("easy","t"), ⟨2, 14/10, 6/20, 1, 0, 1⟩)] := by
    norm_num only [adjust_for_target, sumSplit, getSplit, List.map, List.sum]
    norm_num only [fracsOf, idealOf, getSplit, List.map, sortDesc, insDesc, List.foldr]
    simp +decide [walkGrant, gaUpdate, grantOne, addSplit, withTest]
  have ha2 : adjust_for_target .dev 0
      [(("","t"), (⟨1, 7/10, 3/20, 1, 0, 0⟩ : Alloc)),
       (("easy","t"), ⟨2, 14/10, 6/20, 1, 0, 1⟩)] = some
      [(("","t"), ⟨1, 7/10, 3/20, 1, 0, 0⟩), (("easy","t"), ⟨2, 14/10, 6/20, 1, 0, 1⟩)] := by
    norm_num [adjust_for_target, sumSplit, getSplit, List.map, List.sum]
  unfold reconGA adjustedGA
  rw [h0, hT, hD, ha1, Option.some_bind, ha2, Option.map_some']
  rw [reconPass_id _ _ _ _ (by norm_num [sumSplit, getSplit]),
    reconPass_id _ _ _ _ (by norm_num [sumSplit, getSplit])]

lemma rawEmptyKey_run :
    create_splits TRAIN_FRAC DEV_FRAC idShuffle () (rawEmptyKey.map stripRaw) =
      some ([mkItem 0 "" "t", mkItem 1 "easy" "t"], [], [mkItem 2 "easy" "t"]) := by
  have hs : sortByKey (groupsOf (rawEmptyKey.map stripRaw)) =
      [(("","t"), [0]), (("easy","t"), [1, 2])] := by decide
  have hasg : assignIds
      [(("","t"), (⟨1, 7/10, 3/20, 1, 0, 0⟩ : Alloc)),
       (("easy","t"), ⟨2, 14/10, 6/20, 1, 0, 1⟩)] idShuffle ()
      [(("","t"), [0]), (("easy","t"), [1, 2])] = ([0, 1], [], [2]) := by
    simp +decide [assignIds, gaFind, List.find?, idShuffle, pySliceTo, pySlice, pySliceFrom,
      pyIdx]
  have hp1 : partitionOf (rawEmptyKey.map stripRaw) [0, 1] =
      [mkItem 0 "" "t", mkItem 1 "easy" "t"] := by decide
  have hp2 : partitionOf (rawEmptyKey.map stripRaw) ([] : List ℕ) = [] := by decide
  have hp3 : partitionOf (rawEmptyKey.map stripRaw) [2] = [mkItem 2 "easy" "t"] := by decide
  rw [create_splits, rawEmptyKey_recon, Option.some_bind, hs, hasg]
  simp +decide [hp1, hp2, hp3]

/-! ### Supporting lemmas for the claim theorems -/

lemma filter_id_fixpoint (items : List Item) (pids : List ℕ) :
    items.filter (fun it => decide (it.id ∈ pids)) =
      items.filter (fun it => decide (it.id ∈
        (items.filter (fun it => decide (it.id ∈ pids))).map Item.id)) := by
  apply List.filter_congr
  intro it hit
  simp only [decide_eq_decide]
  constructor
  · intro hm
    exact List.mem_map_of_mem Item.id (List.mem_filter.mpr ⟨hit, by simpa using hm⟩)
  · intro hm
    obtain ⟨it', hit', he⟩ := List.mem_map.mp hm
    have h2 := List.of_mem_filter hit'
    simp only [decide_eq_true_eq] at h2
    exact he ▸ h2

lemma groupsOfRawAux_error (ritems : List RawItem)
    (h : ∃ r ∈ ritems, r.difficulty_level = none ∨ r.table = none) :
    ∀ gs, ∃ e, groupsOfRawAux gs ritems = .error e := by
  induction ritems with
  | nil =>
    obtain ⟨r, hr, _⟩ := h
    simp at hr
  | cons r0 rest ih =>
    intro gs
    cases hd : r0.difficulty_level with
    | none => exact ⟨"KeyError: 'difficulty_level'", by simp [groupsOfRawAux, hd]⟩
    | some d =>
      cases ht : r0.table with
      | none => exact ⟨"KeyError: 'table'", by simp [groupsOfRawAux, hd, ht]⟩
      | some t =>
        obtain ⟨r, hr, hmiss⟩ := h
        rcases List.mem_cons.mp hr with he | he
        · exfalso
          subst he
          rcases hmiss with hm | hm
          · rw [hd] at hm
            exact Option.noConfusion hm
          · rw [ht] at hm
            exact Option.noConfusion hm
        · obtain ⟨e, hrec⟩ := ih ⟨r, he, hmiss⟩ (addToGroups gs (d, t) (r0.id.getD 0))
          exact ⟨e, by simp [groupsOfRawAux, hd, ht, hrec]⟩

/-! ### The claims -/

/-- C1: for every input pool whose ids are distinct, every valid fraction
configuration and every permuting shuffler, the allocator succeeds and its
three output partitions have pairwise disjoint id sets, their ids together are
a permutation of the pool's ids, and their sizes add up to the pool size — no
item is dropped and no item is duplicated. -/
theorem c1_allocator_complete {S : Type} (fT fD : ℚ) (shuf : S → List ℕ → List ℕ × S)
    (seed : S) (items : List Item)
    (hfT : 0 ≤ fT) (hfD : 0 ≤ fD) (hTD : fT + fD ≤ 1)
    (hshuf : ∀ s l, (shuf s l).1.Perm l)
    (hids : (items.map Item.id).Nodup) :
    ∃ a b c, create_splits fT fD shuf seed items = some (a, b, c) ∧
      a.length + b.length + c.length = items.length ∧
      ((a ++ (b ++ c)).map Item.id).Perm (items.map Item.id) ∧
      (∀ x, ¬ (x ∈ a.map Item.id ∧ x ∈ b.map Item.id)) ∧
      (∀ x, ¬ (x ∈ a.map Item.id ∧ x ∈ c.map Item.id)) ∧
      (∀ x, ¬ (x ∈ b.map Item.id ∧ x ∈ c.map Item.id)) := by
  obtain ⟨u, v, w, hperm, hnd, heq⟩ :=
    create_splits_filters fT fD shuf seed items hfT hfD hTD hshuf hids
  have hfa : (items.filter (fun it => decide (it.id ∈ u))).map Item.id =
      (items.map Item.id).filter (fun i => decide (i ∈ u)) := by
    rw [List.filter_map]
    rfl
  have hfb : (items.filter (fun it => decide (it.id ∈ v))).map Item.id =
      (items.map Item.id).filter (fun i => decide (i ∈ v)) := by
    rw [List.filter_map]
    rfl
  have hfc : (items.filter (fun it => decide (it.id ∈ w))).map Item.id =
      (items.map Item.id).filter (fun i => decide (i ∈ w)) := by
    rw [List.filter_map]
    rfl
  have hone : ∀ x ∈ items.map Item.id,
      (x ∈ u ∧ x ∉ v ∧ x ∉ w) ∨ (x ∉ u ∧ x ∈ v ∧ x ∉ w) ∨ (x ∉ u ∧ x ∉ v ∧ x ∈ w) :=
    fun x hx => nodup_three_cases u v w hnd x (hperm.mem_iff.mpr (by simpa [all_ids] using hx))
  have hp3 := filter_three_perm (items.map Item.id) u v w hone
  refine ⟨_, _, _, heq, ?_, ?_, ?_, ?_, ?_⟩
  · have hlen := hp3.length_eq
    simp only [List.length_append] at hlen
    rw [← List.length_map _ Item.id, ← List.length_map _ Item.id,
      ← List.length_map _ Item.id, hfa, hfb, hfc]
    rw [List.length_map] at hlen
    omega
  · rw [List.map_append, List.map_append, hfa, hfb, hfc]
    exact hp3
  · rintro x ⟨hxa, hxb⟩
    rw [hfa] at hxa
    rw [hfb] at hxb
    have h1 := List.of_mem_filter hxa
    have h2 := List.of_mem_filter hxb
    simp only [decide_eq_true_eq] at h1 h2
    have hmem := List.mem_of_mem_filter hxa
    rcases hone x hmem with ⟨_, hn, _⟩ | ⟨hn, _, _⟩ | ⟨hn, _, _⟩
    · exact hn h2
    · exact hn h1
    · exact hn h1
  · rintro x ⟨hxa, hxc⟩
    rw [hfa] at hxa
    rw [hfc] at hxc
    have h1 := List.of_mem_filter hxa
    have h2 := List.of_mem_filter hxc
    simp only [decide_eq_true_eq] at h1 h2
    have hmem := List.mem_of_mem_filter hxa
    rcases hone x hmem with ⟨_, _, hn⟩ | ⟨hn, _, _⟩ | ⟨hn, _, _⟩
    · exact hn h2
    · exact hn h1
    · exact hn h1
  · rintro x ⟨hxb, hxc⟩
    rw [hfb] at hxb
    rw [hfc] at hxc
    have h1 := List.of_mem_filter hxb
    have h2 := List.of_mem_filter hxc
    simp only [decide_eq_true_eq] at h1 h2
    have hmem := List.mem_of_mem_filter hxb
    rcases hone x hmem with ⟨_, hn, _⟩ | ⟨_, _, hn⟩ | ⟨_, hn, _⟩
    · exact hn h1
    · exact hn h2
    · exact hn h1

/-- Witness for C1 at the configured fractions, the identity shuffler and the
three-item pool. -/
theorem c1_witness :
    ((0 : ℚ) ≤ TRAIN_FRAC) ∧ ((0 : ℚ) ≤ DEV_FRAC) ∧ (TRAIN_FRAC + DEV_FRAC ≤ 1) ∧
    (∀ (s : Unit) l, (idShuffle s l).1.Perm l) ∧ (pool3.map Item.id).Nodup ∧
    (∃ a b c, create_splits TRAIN_FRAC DEV_FRAC idShuffle () pool3 = some (a, b, c) ∧
      a.length + b.length + c.length = pool3.length ∧
      ((a ++ (b ++ c)).map Item.id).Perm (pool3.map Item.id) ∧
      (∀ x, ¬ (x ∈ a.map Item.id ∧ x ∈ b.map Item.id)) ∧
      (∀ x, ¬ (x ∈ a.map Item.id ∧ x ∈ c.map Item.id)) ∧
      (∀ x, ¬ (x ∈ b.map Item.id ∧ x ∈ c.map Item.id))) :=
  ⟨by norm_num [TRAIN_FRAC], by norm_num [DEV_FRAC], by norm_num [TRAIN_FRAC, DEV_FRAC],
   fun _ l => List.Perm.refl l, by decide,
   c1_allocator_complete TRAIN_FRAC DEV_FRAC idShuffle () pool3
     (by norm_num [TRAIN_FRAC]) (by norm_num [DEV_FRAC])
     (by norm_num [TRAIN_FRAC, DEV_FRAC]) (fun _ l => List.Perm.refl l) (by decide)⟩

/-- C2: the allocator is deterministic — two runs on equal pools with equal
seeds and extensionally equal shuffling sources return identical partitions,
item order included. -/
theorem c2_deterministic {S : Type} (fT fD : ℚ)
    (shuf1 shuf2 : S → List ℕ → List ℕ × S) (seed1 seed2 : S) (items1 items2 : List Item)
    (hf : ∀ s l, shuf1 s l = shuf2 s l) (hs : seed1 = seed2) (hi : items1 = items2) :
    create_splits fT fD shuf1 seed1 items1 = create_splits fT fD shuf2 seed2 items2 := by
  subst hs
  subst hi
  unfold create_splits
  have hcongr : ∀ (ga : GA) (s : S) (gs : List (Key × List ℕ)),
      assignIds ga shuf1 s gs = assignIds ga shuf2 s gs :=
    fun ga s gs => assignIds_congr ga shuf1 shuf2 hf s gs
  simp only [hcongr]

/-- Witness for C2: two textually independent but equal runs coincide. -/
theorem c2_witness :
    (∀ (s : Unit) l, idShuffle s l = idShuffle s l) ∧ (() = ()) ∧ (pool3 = pool3) ∧
    create_splits TRAIN_FRAC DEV_FRAC idShuffle () pool3 =
      create_splits TRAIN_FRAC DEV_FRAC idShuffle () pool3 :=
  ⟨fun _ _ => rfl, rfl, rfl,
   c2_deterministic TRAIN_FRAC DEV_FRAC idShuffle idShuffle () () pool3 pool3
     (fun _ _ => rfl) rfl rfl⟩

/-- C3 (as stated) is false: on the three-item pool with fractions
`1/2, 1/2, 0` — which sum to one — and `n = 3 ≥ 3`, the dev partition holds a
single item while `round(n × f_dev) = 2`. -/
theorem c3_counterexample :
    ((1 : ℚ)/2 + 1/2 + 0 = 1) ∧ pool3.length = 3 ∧
    create_splits (1/2) (1/2) idShuffle () pool3 =
      some ([mkItem 0 "a" "t", mkItem 1 "b" "t"], [mkItem 2 "c" "t"], []) ∧
    target_dev (1/2) pool3.length = 2 ∧
    (([mkItem 2 "c" "t"] : List Item).length : ℤ) ≠ target_dev (1/2) pool3.length := by
  refine ⟨by norm_num, by decide, pool3_run, ?_, ?_⟩
  · norm_num [target_dev, pyRound, Int.floor_eq_iff, pool3, mkItem]
  · have h : target_dev (1/2) pool3.length = 2 := by
      norm_num [target_dev, pyRound, Int.floor_eq_iff, pool3, mkItem]
    rw [h]
    decide

/-- C3 (amended): after the final reconciliation pass the *allocation table*
hits the rounded targets exactly — the train column sums to
`round(n × f_train)` and the dev column to `round(n × f_dev)` — for every pool
and all non-negative fractions with `f_train + f_dev ≤ 1`. The realized
partition sizes can still fall short of these column sums, because a stratum's
`train + dev` can exceed its size and Python slicing then truncates the dev
chunk (see the counterexample). -/
theorem c3_amended (fT fD : ℚ) (items : List Item)
    (hfT : 0 ≤ fT) (hfD : 0 ≤ fD) (hTD : fT + fD ≤ 1) :
    ∃ ga, reconGA fT fD items = some ga ∧
      sumSplit .train ga = target_train fT items.length ∧
      sumSplit .dev ga = target_dev fD items.length := by
  obtain ⟨ga, h, h1, h2, _, _, _⟩ := reconGA_some fT fD items hfT hfD hTD
  exact ⟨ga, h, h1, h2⟩

/-- Witness for the amended C3 on the counterexample's own configuration: the
allocation table does sum to the targets even there. -/
theorem c3_witness :
    ((0 : ℚ) ≤ 1/2) ∧ ((0 : ℚ) ≤ 1/2) ∧ ((1 : ℚ)/2 + 1/2 ≤ 1) ∧
    (∃ ga, reconGA (1/2) (1/2) pool3 = some ga ∧
      sumSplit .train ga = target_train (1/2) pool3.length ∧
      sumSplit .dev ga = target_dev (1/2) pool3.length) :=
  ⟨by norm_num, by norm_num, by norm_num,
   c3_amended (1/2) (1/2) pool3 (by norm_num) (by norm_num) (by norm_num)⟩

/-- C4: before the final reconciliation pass — that is, after the two
deficit-correction passes — every stratum's train count is its floor
allocation or that plus one; with valid fractions the round-robin fallback
never pushes any stratum two units above its floor. -/
theorem c4_stratum_bound (fT fD : ℚ) (items : List Item)
    (_hfT : 0 ≤ fT) (_hfD : 0 ≤ fD) (hTD : fT + fD ≤ 1) (ga2 : GA)
    (h : adjustedGA fT fD items = some ga2) :
    ∀ kv ∈ ga2, kv.2.train = ⌊(kv.2.size : ℚ) * fT⌋ ∨
      kv.2.train = ⌊(kv.2.size : ℚ) * fT⌋ + 1 :=
  adjusted_train_bound fT fD items hTD ga2 h

/-- Witness for C4 on the ten-item scenario pool. -/
theorem c4_witness :
    ((0 : ℚ) ≤ TRAIN_FRAC) ∧ ((0 : ℚ) ≤ DEV_FRAC) ∧ (TRAIN_FRAC + DEV_FRAC ≤ 1) ∧
    adjustedGA TRAIN_FRAC DEV_FRAC pool10 = some ga10_final ∧
    (∀ kv ∈ ga10_final, kv.2.train = ⌊(kv.2.size : ℚ) * TRAIN_FRAC⌋ ∨
      kv.2.train = ⌊(kv.2.size : ℚ) * TRAIN_FRAC⌋ + 1) :=
  ⟨by norm_num [TRAIN_FRAC], by norm_num [DEV_FRAC], by norm_num [TRAIN_FRAC, DEV_FRAC],
   pool10_adjusted,
   c4_stratum_bound TRAIN_FRAC DEV_FRAC pool10 (by norm_num [TRAIN_FRAC])
     (by norm_num [DEV_FRAC]) (by norm_num [TRAIN_FRAC, DEV_FRAC]) ga10_final
     pool10_adjusted⟩

/-- C5: the concrete ten-item scenario. The global targets are `7/2/1`; the
floor allocations are `4/1/2` on the seven-item stratum and `2/0/1` on the
three-item stratum; the deficit pass gives the extra train unit to
`(easy, production)` — the stratum with the larger fractional train remainder
(`9/10` against `1/10`) and positive spare capacity — and the extra dev unit
to `(hard, production)` (remainder `9/20` against `1/20`, capacity `1`). -/
theorem c5_concrete_scenario :
    target_train TRAIN_FRAC pool10.length = 7 ∧
    target_dev DEV_FRAC pool10.length = 2 ∧
    (pool10.length : ℤ) - target_train TRAIN_FRAC pool10.length -
      target_dev DEV_FRAC pool10.length = 1 ∧
    initialGA TRAIN_FRAC DEV_FRAC pool10 = ga10_init ∧
    adjustedGA TRAIN_FRAC DEV_FRAC pool10 = some ga10_final ∧
    ((49 : ℚ)/10 - 4 > (21 : ℚ)/10 - 2 ∧ (7 : ℤ) - 4 - 1 > 0) ∧
    ((9 : ℚ)/20 - 0 > (21 : ℚ)/20 - 1 ∧ (3 : ℤ) - 2 - 0 > 0) := by
  refine ⟨pool10_target_train, pool10_target_dev, ?_, pool10_initial, pool10_adjusted,
    ⟨by norm_num, by norm_num⟩, ⟨by norm_num, by norm_num⟩⟩
  rw [pool10_target_train, pool10_target_dev, pool10_len]
  norm_num

/-- C6 (as stated) is false: with fractions `1/2, 1/2` on three singleton
strata, the round-robin fallback grants a dev unit to stratum `("a", "t")`
whose capacity `size − train − dev` is already zero, driving its test count to
`-1`. -/
theorem c6_counterexample :
    reconGA (1/2) (1/2) pool3 = some ga3_final ∧
    ((("a","t"), (⟨1, 1/2, 1/2, 1, 1, -1⟩ : Alloc)) ∈ ga3_final) ∧
    ((⟨1, 1/2, 1/2, 1, 1, -1⟩ : Alloc)).test < 0 ∧
    ((0 : ℚ) ≤ 1/2 ∧ (1 : ℚ)/2 + 1/2 ≤ 1) :=
  ⟨pool3_recon, List.mem_cons_self _ _, by decide, by norm_num, by norm_num⟩

/-- C6 (amended): the round-robin fallback only checks that the granted
split count is below the stratum size, not that `size − train − dev` is
positive. What does hold at every stratum after the passes is
`0 ≤ train ≤ size` and `0 ≤ dev ≤ size`; the test count can go negative. -/
theorem c6_amended (fT fD : ℚ) (items : List Item)
    (hfT : 0 ≤ fT) (hfD : 0 ≤ fD) (hTD : fT + fD ≤ 1) (ga : GA)
    (h : reconGA fT fD items = some ga) :
    ∀ kv ∈ ga, 0 ≤ kv.2.train ∧ kv.2.train ≤ kv.2.size ∧
      0 ≤ kv.2.dev ∧ kv.2.dev ≤ kv.2.size := by
  obtain ⟨ga2, h2, _, _, hok, _, _⟩ := reconGA_some fT fD items hfT hfD hTD
  rw [h] at h2
  have hee := Option.some_inj.mp h2
  subst hee
  intro kv hkv
  obtain ⟨h1, h2d, h3, h4, _⟩ := hok kv hkv
  exact ⟨h1, h3, h2d, h4⟩

/-- Witness for the amended C6 on the counterexample configuration. -/
theorem c6_witness :
    ((0 : ℚ) ≤ 1/2) ∧ ((1 : ℚ)/2 + 1/2 ≤ 1) ∧
    reconGA (1/2) (1/2) pool3 = some ga3_final ∧
    (∀ kv ∈ ga3_final, 0 ≤ kv.2.train ∧ kv.2.train ≤ kv.2.size ∧
      0 ≤ kv.2.dev ∧ kv.2.dev ≤ kv.2.size) :=
  ⟨by norm_num, by norm_num, pool3_recon,
   c6_amended (1/2) (1/2) pool3 (by norm_num) (by norm_num) (by norm_num) ga3_final
     pool3_recon⟩

/-- C7 (as stated) is false: the script never validates the fractions. With
train and dev fractions `1/2` and `1/5` — which together with the configured
test fraction sum to `17/20 ≠ 1` — the allocator silently computes a complete
split instead of failing fast. -/
theorem c7_counterexample :
    ((1 : ℚ)/2 + 1/5 + TEST_FRAC ≠ 1) ∧
    create_splits (1/2) (1/5) idShuffle () pool3 =
      some ([mkItem 0 "a" "t", mkItem 1 "b" "t"], [mkItem 2 "c" "t"], []) :=
  ⟨by norm_num [TEST_FRAC], pool3_bad_run⟩

/-- C7 (amended): the script performs no fraction validation at all — it
proceeds to compute a split for fractions that do not sum to one. The shipped
constants do sum to one, so the shipped configuration is unaffected. -/
theorem c7_amended :
    TRAIN_FRAC + DEV_FRAC + TEST_FRAC = 1 ∧
    ((1 : ℚ)/2 + 1/5 + TEST_FRAC ≠ 1) ∧
    (create_splits (1/2) (1/5) idShuffle () pool3).isSome = true := by
  refine ⟨by norm_num [TRAIN_FRAC, DEV_FRAC, TEST_FRAC], by norm_num [TEST_FRAC], ?_⟩
  rw [pool3_bad_run]
  rfl

/-- C8 (as stated) is false for the empty-key half: a record whose
`difficulty_level` is the empty string is not rejected — it is grouped under
the key `("", "t")` and silently assigned to the train partition. -/
theorem c8_counterexample :
    (rawEmptyKey.map stripRaw =
      [mkItem 0 "" "t", mkItem 1 "easy" "t", mkItem 2 "easy" "t"]) ∧
    ((mkItem 0 "" "t").difficulty_level = "") ∧
    create_splits_raw TRAIN_FRAC DEV_FRAC idShuffle () rawEmptyKey =
      .ok (some ([mkItem 0 "" "t", mkItem 1 "easy" "t"], [], [mkItem 2 "easy" "t"])) ∧
    (mkItem 0 "" "t") ∈ [mkItem 0 "" "t", mkItem 1 "easy" "t"] := by
  refine ⟨by decide, by decide, ?_, by decide⟩
  have h1 : rawAllIds rawEmptyKey = .ok [0, 1, 2] := by rfl
  have h2 : groupsOfRaw rawEmptyKey = .ok [(("","t"), [0]), (("easy","t"), [1, 2])] := by
    rfl
  rw [create_splits_raw, h1, h2, rawEmptyKey_run]

/-- C8 (amended): a record with a *missing* `difficulty_level` or `table`
field does abort the run with a `KeyError` before any partition is produced;
only the empty-string case slips through (see the counterexample). -/
theorem c8_amended {S : Type} (fT fD : ℚ) (shuf : S → List ℕ → List ℕ × S) (seed : S)
    (ritems : List RawItem)
    (h : ∃ r ∈ ritems, r.difficulty_level = none ∨ r.table = none) :
    ∃ e, create_splits_raw fT fD shuf seed ritems = .error e := by
  unfold create_splits_raw
  cases hids : rawAllIds ritems with
  | error e => exact ⟨e, rfl⟩
  | ok l =>
    obtain ⟨e, he⟩ := groupsOfRawAux_error ritems h []
    refine ⟨e, ?_⟩
    unfold groupsOfRaw
    rw [he]

/-- Witness for the amended C8 on a pool whose second record is missing its
difficulty field. -/
theorem c8_witness :
    (∃ r ∈ rawMissing, r.difficulty_level = none ∨ r.table = none) ∧
    (∃ e, create_splits_raw TRAIN_FRAC DEV_FRAC idShuffle () rawMissing = .error e) :=
  ⟨⟨⟨some 1, none, some "t", "q", "s"⟩, by decide, Or.inl rfl⟩,
   c8_amended TRAIN_FRAC DEV_FRAC idShuffle () rawMissing
     ⟨⟨some 1, none, some "t", "q", "s"⟩, by decide, Or.inl rfl⟩⟩

/-- C9: whenever the allocator returns partitions on a pool with distinct
ids, each partition is a sublist of the input pool — the records appear
unchanged and in their original relative order — and is exactly the
subsequence of pool records whose id belongs to that partition's id set. -/
theorem c9_order_preservation {S : Type} (fT fD : ℚ) (shuf : S → List ℕ → List ℕ × S)
    (seed : S) (items a b c : List Item)
    (hids : (items.map Item.id).Nodup)
    (h : create_splits fT fD shuf seed items = some (a, b, c)) :
    (a.Sublist items ∧ b.Sublist items ∧ c.Sublist items) ∧
      a = items.filter (fun it => decide (it.id ∈ a.map Item.id)) ∧
      b = items.filter (fun it => decide (it.id ∈ b.map Item.id)) ∧
      c = items.filter (fun it => decide (it.id ∈ c.map Item.id)) := by
  unfold create_splits at h
  cases hrec : reconGA fT fD items with
  | none =>
    rw [hrec] at h
    simp at h
  | some ga4 =>
    rw [hrec, Option.some_bind] at h
    set asg := assignIds ga4 shuf seed (sortByKey (groupsOf items)) with hasg
    simp only [← hasg] at h
    by_cases hlen : ((asg.1 ++ asg.2.1 ++ asg.2.2).dedup).length = items.length
    · rw [if_pos hlen] at h
      have he := Option.some_inj.mp h
      obtain ⟨he1, he2, he3⟩ : partitionOf items asg.1 = a ∧
          partitionOf items asg.2.1 = b ∧ partitionOf items asg.2.2 = c := by
        refine ⟨congrArg Prod.fst he, ?_, ?_⟩
        · exact congrArg (fun p => p.2.1) he
        · exact congrArg (fun p => p.2.2) he
      rw [partitionOf_filter items asg.1 hids] at he1
      rw [partitionOf_filter items asg.2.1 hids] at he2
      rw [partitionOf_filter items asg.2.2 hids] at he3
      refine ⟨⟨?_, ?_, ?_⟩, ?_, ?_, ?_⟩
      · rw [← he1]; exact List.filter_sublist items
      · rw [← he2]; exact List.filter_sublist items
      · rw [← he3]; exact List.filter_sublist items
      · rw [← he1]; exact filter_id_fixpoint items asg.1
      · rw [← he2]; exact filter_id_fixpoint items asg.2.1
      · rw [← he3]; exact filter_id_fixpoint items asg.2.2
    · rw [if_neg hlen] at h
      exact absurd h (by simp)

/-- Witness for C9 on the single-item pool at the configured fractions. -/
theorem c9_witness :
    (pool1.map Item.id).Nodup ∧
    create_splits TRAIN_FRAC DEV_FRAC idShuffle () pool1 =
      some ([mkItem 5 "easy" "production"], [], []) ∧
    ((([mkItem 5 "easy" "production"] : List Item).Sublist pool1 ∧
        ([] : List Item).Sublist pool1 ∧ ([] : List Item).Sublist pool1) ∧
      [mkItem 5 "easy" "production"] = pool1.filter (fun it =>
        decide (it.id ∈ ([mkItem 5 "easy" "production"] : List Item).map Item.id)) ∧
      ([] : List Item) = pool1.filter (fun it =>
        decide (it.id ∈ (([] : List Item)).map Item.id)) ∧
      ([] : List Item) = pool1.filter (fun it =>
        decide (it.id ∈ (([] : List Item)).map Item.id))) :=
  ⟨by decide, pool1_run,
   c9_order_preservation TRAIN_FRAC DEV_FRAC idShuffle () pool1
     [mkItem 5 "easy" "production"] [] [] (by decide) pool1_run⟩

/-- C10: a duplicated id makes the script's assertion fail before any
partition output is produced — for any valid fractions and permuting shuffler
the run aborts instead of emitting partitions. -/
theorem c10_duplicate_id_aborts {S : Type} (fT fD : ℚ) (shuf : S → List ℕ → List ℕ × S)
    (seed : S) (items : List Item)
    (hfT : 0 ≤ fT) (hfD : 0 ≤ fD) (hTD : fT + fD ≤ 1)
    (hshuf : ∀ s l, (shuf s l).1.Perm l)
    (hdup : ¬ (items.map Item.id).Nodup) :
    create_splits fT fD shuf seed items = none :=
  create_splits_none_of_dup fT fD shuf seed items hfT hfD hTD hshuf hdup

/-- Witness for C10 on a pool with a duplicated id. -/
theorem c10_witness :
    ((0 : ℚ) ≤ TRAIN_FRAC) ∧ ((0 : ℚ) ≤ DEV_FRAC) ∧ (TRAIN_FRAC + DEV_FRAC ≤ 1) ∧
    (¬ (poolDup.map Item.id).Nodup) ∧
    create_splits TRAIN_FRAC DEV_FRAC idShuffle () poolDup = none :=
  ⟨by norm_num [TRAIN_FRAC], by norm_num [DEV_FRAC], by norm_num [TRAIN_FRAC, DEV_FRAC],
   by decide,
   c10_duplicate_id_aborts TRAIN_FRAC DEV_FRAC idShuffle () poolDup
     (by norm_num [TRAIN_FRAC]) (by norm_num [DEV_FRAC])
     (by norm_num [TRAIN_FRAC, DEV_FRAC]) (fun _ l => List.Perm.refl l) (by decide)⟩

end CreateSplits
